import Mathlib

/-!
A verification development for the loccount line-counting engine
(file `part_006` of the repository, Go, version 2.0).

Files are modelled as lists of bytes (`List Nat`, each entry a byte value).
Pure fragments of the Go source are translated into executable Lean
definitions; the stateful byte- and line-readers become explicit recursion
over the remaining input.  Each definition's doc comment names the Go
function and lines it embeds.
-/

set_option maxRecDepth 10000

/-- Byte values used throughout, written numerically: 9 = tab, 10 = newline,
12 = form feed, 13 = carriage return, 32 = space, 34 = double quote,
35 = hash, 39 = single quote, 42 = star, 47 = slash, 59 = semicolon,
92 = backslash, 96 = backtick, 120 = letter x, 123/125 = braces. -/
def bytesOf (s : String) : List Nat := s.data.map Char.toNat

/-- `isspace` (part_006:641-643): space, tab, carriage return, newline, form feed. -/
def isspace (c : Nat) : Bool := c = 32 || c = 9 || c = 13 || c = 10 || c = 12

/-- The cutset of `bytes.Trim(ctx.line, " \t\r\n")` used by the line-based counters. -/
def wsCut : List Nat := [32, 9, 13, 10]

/-- `bytes.Trim(l, cut)`: remove bytes of `cut` from both ends. -/
def trimSet (cut : List Nat) (l : List Nat) : List Nat :=
  ((l.dropWhile (fun c => cut.contains c)).reverse.dropWhile (fun c => cut.contains c)).reverse

/-- `i := bytes.Index(line, pat); if i > -1 { line = line[:i] }`: truncate the
list at the first occurrence of the byte pattern `pat` (no change if absent;
an empty pattern truncates at position 0, as `bytes.Index` returns 0). -/
def truncAt (pat : List Nat) : List Nat → List Nat
  | [] => []
  | c :: rest => if pat.isPrefixOf (c :: rest) then [] else c :: truncAt pat rest

/-- `bytes.Contains` / `strings.Contains`: does the byte pattern `pat` occur
as a contiguous sub-list?  (An empty pattern occurs in every list, as in Go.) -/
def hasSub (pat : List Nat) : List Nat → Bool
  | [] => pat.isPrefixOf []
  | c :: rest => pat.isPrefixOf (c :: rest) || hasSub pat rest

/-- `bytes.Index(line, pat)` as an option: index of first occurrence of `pat`. -/
def idxOfSub (pat : List Nat) : List Nat → Option Nat
  | [] => if pat = [] then some 0 else none
  | c :: rest =>
    if pat.isPrefixOf (c :: rest) then some 0 else (idxOfSub pat rest).map (· + 1)

/-- Worker for `splitLines`: `acc` holds the bytes of the current line read so
far, in reverse. -/
def splitLinesAux (acc : List Nat) : List Nat → List (List Nat)
  | [] => []
  | c :: rest =>
    if c = 10 then (acc.reverse ++ [10]) :: splitLinesAux [] rest
    else splitLinesAux (c :: acc) rest

/-- `munchline` (part_006:610-621) iterated over a whole file:
`ReadBytes('\n')` returns each newline-terminated line including its
newline; at EOF it returns `io.EOF` together with any unterminated tail,
and `munchline` then returns `false`, so an unterminated final line is
discarded.  Hence: the complete lines of the input, each ending in byte 10,
with any trailing newline-less fragment dropped. -/
def splitLines (l : List Nat) : List (List Nat) := splitLinesAux [] l

example : splitLines [120, 10, 121] = [[120, 10]] := by decide
example : splitLines [120] = [] := by decide

/-- One line of `genericCounter` (part_006:1175-1187): cut at the EOL-comment
marker, trim whitespace, count a nonblank line, and count an LLOC when the
descriptor has a terminator contained in the stripped line. -/
def genericLineStep (eolcomment terminator : List Nat) (counts : Nat × Nat)
    (line : List Nat) : Nat × Nat :=
  let l1 := truncAt eolcomment line
  let l2 := trimSet wsCut l1
  if l2 ≠ [] then
    (counts.1 + 1,
     counts.2 + (if terminator ≠ [] ∧ hasSub terminator l2 then 1 else 0))
  else counts

/-- `genericCounter` (part_006:1161-1190), without the verifier short-circuit
(none of the uses in this development involves a verifier): fold the per-line
step over the newline-terminated lines of the file. -/
def genericCount (eolcomment terminator : List Nat) (l : List Nat) : Nat × Nat :=
  (splitLines l).foldl (genericLineStep eolcomment terminator) (0, 0)

example : genericCount [35] [] (bytesOf "x\n# c\n") = (1, 0) := by decide
example : genericCount [35] [] [120] = (0, 0) := by decide

/-! ## Python counter (part_006:1192-1263) -/

/-- State of `pythonCounter`: the two booleans `isintriple` and `isincomment`
and the accumulated counts. -/
structure PyState where
  isintriple : Bool := false
  isincomment : Bool := false
  sloc : Nat := 0
  lloc : Nat := 0
deriving DecidableEq

/-- Is `[q, q, q]` (a triple quote, `q` = 34 or 39) a prefix here? -/
def tripleAt (q : Nat) (l : List Nat) : Bool :=
  match l with
  | a :: b :: c :: _ => a = q && b = q && c = q
  | _ => false

/-- `tripleBoundary` (part_006:1201): the line contains `"""` or `'''`. -/
def tripleBoundary (l : List Nat) : Bool :=
  hasSub [34, 34, 34] l || hasSub [39, 39, 39] l

/-- `dtriple`/`striple` (part_006:425-432), pattern `<q><q><q>.<q><q><q>`
with `.` any byte other than newline, applied via `ReplaceAllLiteral` with
the empty replacement: remove all non-overlapping leftmost occurrences. -/
def removeTriplePair (q : Nat) : List Nat → List Nat
  | a :: b :: c :: d :: e :: f :: g :: rest =>
    if a = q ∧ b = q ∧ c = q ∧ d ≠ 10 ∧ e = q ∧ f = q ∧ g = q then
      removeTriplePair q rest
    else a :: removeTriplePair q (b :: c :: d :: e :: f :: g :: rest)
  | l => l

/-- `dlonely`/`slonely` (part_006:433-440), pattern
`^[ \t]*<q>[^<q>]+<q>` with empty replacement: erase a leading
whitespace-run, an opening quote, at least one non-quote byte and a
closing quote; the `^` anchor means at most one match, at position 0. -/
def dropLonely (q : Nat) (l : List Nat) : List Nat :=
  let sp := l.takeWhile (fun c => c = 32 || c = 9)
  let r := l.drop sp.length
  match r with
  | c :: rest =>
    if c = q then
      let body := rest.takeWhile (fun b => b != q)
      if body ≠ [] ∧ (rest.drop body.length).headD 0 = q then
        rest.drop (body.length + 1)
      else l
    else l
  | [] => l

/-- Start index, just past which the last `[q, q, q]` occurrence begins
(used for the greedy `.*<q><q><q>` trailer patterns; callers only pass
lines whose sole newline is the final byte, so the greedy `.*` may reach
any occurrence). -/
def lastTripleIdx (q : Nat) (l : List Nat) : Option Nat :=
  ((List.range l.length).filter (fun i => tripleAt q (l.drop i))).getLast?

/-- `dtrailer`/`strailer` (part_006:441-448), pattern `.*<q><q><q>` applied
via `ReplaceAllLiteral rep`: greedy `.*` makes the single leftmost match run
from position 0 through the end of the last triple-quote occurrence; that
region is replaced by `rep` ([] when erasing a docstring, byte 120 = a
placeholder letter x otherwise). -/
def trailerReplace (q : Nat) (rep : List Nat) (l : List Nat) : List Nat :=
  match lastTripleIdx q l with
  | none => l
  | some i => rep ++ l.drop (i + 3)

/-- The line rewriting and flag updates of one `pythonCounter` iteration
(part_006:1209-1252), after the first `#`-truncation; returns the rewritten
line together with the new `isintriple` and `isincomment`. -/
def pyTransform (st : PyState) (line1 : List Nat) : List Nat × Bool × Bool :=
  if !st.isintriple then
    let l2 := removeTriplePair 34 line1
    let l3 := removeTriplePair 39 l2
    let l4 := dropLonely 34 l3
    let l5 := dropLonely 39 l4
    let l6 := l5.takeWhile (fun c => c != 35)
    if tripleBoundary l6 then
      let t := trimSet wsCut l6
      (t, true,
       if [34, 34, 34].isPrefixOf t ∨ [39, 39, 39].isPrefixOf t then true
       else st.isincomment)
    else (l6, st.isintriple, st.isincomment)
  else
    if tripleBoundary line1 then
      let rep : List Nat := if st.isincomment then [] else [120]
      let lA := trailerReplace 34 rep line1
      let lB := trailerReplace 39 rep lA
      if tripleBoundary lB then (lB, st.isintriple, st.isincomment)
      else (lB, false, false)
    else (line1, st.isintriple, st.isincomment)

/-- The counting tail of one `pythonCounter` iteration (part_006:1253-1259):
trim, then count SLOC on a nonblank non-docstring line, and LLOC when the
last byte is not a backslash (92). -/
def pyCountStep (st : PyState) (intrip incom : Bool) (line : List Nat) : PyState :=
  let t := trimSet wsCut line
  if ¬incom ∧ t ≠ [] then
    { isintriple := intrip, isincomment := incom, sloc := st.sloc + 1,
      lloc := st.lloc + (if t.getLast? ≠ some 92 then 1 else 0) }
  else { isintriple := intrip, isincomment := incom, sloc := st.sloc, lloc := st.lloc }

/-- One full `pythonCounter` loop iteration (part_006:1202-1259): truncate at
the first `#` (35), rewrite and update flags, then count. -/
def pyStep (st : PyState) (line0 : List Nat) : PyState :=
  let line1 := line0.takeWhile (fun c => c != 35)
  let r := pyTransform st line1
  pyCountStep st r.2.1 r.2.2 r.1

/-- `pythonCounter` (part_006:1192-1263): fold the per-line step over the
newline-terminated lines, returning `(SLOC, LLOC)`. -/
def pythonCount (l : List Nat) : Nat × Nat :=
  let st := (splitLines l).foldl pyStep {}
  (st.sloc, st.lloc)

example : pythonCount (bytesOf "x=1\n") = (1, 1) := by decide

/-! ## Perl counter (part_006:1280-1331) -/

/-- State of `perlCounter`: the here-document tag (empty list = none), the
POD flag, and the counts. -/
structure PerlState where
  heredoc : List Nat := []
  isinpod : Bool := false
  sloc : Nat := 0
  lloc : Nat := 0
deriving DecidableEq

/-- `podheader` (part_006:501): pattern `^=[a-zA-Z]`. -/
def perlPodHeader (l : List Nat) : Bool :=
  match l with
  | a :: b :: _ => a = 61 && ((65 ≤ b && b ≤ 90) || (97 ≤ b && b ≤ 122))
  | _ => false

/-- The counting tail of one `perlCounter` iteration (part_006:1322-1327):
count a nonblank line outside POD; LLOC when it contains a semicolon (59). -/
def perlCountLine (st : PerlState) (line : List Nat) : PerlState :=
  if ¬st.isinpod ∧ line ≠ [] then
    { st with sloc := st.sloc + 1,
              lloc := st.lloc + (if hasSub [59] line then 1 else 0) }
  else st

/-- The `perlCounter` loop (part_006:1289-1328).  Per line: truncate at the
first `#` (35), trim; then the branch chain: here-doc end (tag cleared),
here-doc start (`<<`, bytes [60,60]; the tag is the remainder trimmed of the
cutset `< \t"';,` = [60,32,9,34,39,59,44]), `=cut` ([61,99,117,116] prefix,
line not counted), POD header, `__END__` ([95,95,69,78,68,95,95] prefix,
processing stops).  Finally the counting tail. -/
def perlLoop : PerlState → List (List Nat) → Nat × Nat
  | st, [] => (st.sloc, st.lloc)
  | st, line0 :: rest =>
    let line := trimSet wsCut (line0.takeWhile (fun c => c != 35))
    if st.heredoc ≠ [] ∧ st.heredoc.isPrefixOf line then
      perlLoop (perlCountLine { st with heredoc := [] } line) rest
    else if (idxOfSub [60, 60] line).isSome then
      let i := (idxOfSub [60, 60] line).getD 0
      perlLoop (perlCountLine
        { st with heredoc := trimSet [60, 32, 9, 34, 39, 59, 44] (line.drop i) } line) rest
    else if st.heredoc = [] ∧ [61, 99, 117, 116].isPrefixOf line then
      perlLoop { st with isinpod := false } rest
    else if st.heredoc = [] ∧ perlPodHeader line then
      perlLoop (perlCountLine { st with isinpod := true } line) rest
    else if [95, 95, 69, 78, 68, 95, 95].isPrefixOf line then
      (st.sloc, st.lloc)
    else
      perlLoop (perlCountLine st line) rest

/-- `perlCounter` (part_006:1280-1331): run the loop over the
newline-terminated lines. -/
def perlCount (l : List Nat) : Nat × Nat := perlLoop {} (splitLines l)

example : perlCount (bytesOf "print 1;\n=pod\ndoc\n=cut\nprint 2;\n") = (2, 2) := by decide

/-! ## Fortran counter (part_006:1396-1408) and the f77 regexes (part_006:484-491) -/

/-- `fortranCounter` (part_006:1396-1408): a line is skipped exactly when the
comment predicate holds and the no-comment (directive) predicate does not;
every other line counts one SLOC. -/
def fortranCount (comment nocomment : List Nat → Bool) (l : List Nat) : Nat :=
  (splitLines l).foldl
    (fun s line => if ¬(comment line = true ∧ nocomment line = false) then s + 1 else s) 0

/-- `f77comment` (part_006:484): pattern `^([c*!]|[ \t]+!|[ \t]*$)`.
The class `[c*!]` holds lowercase c (99), star (42), bang (33) only; the
second alternative is a nonempty space/tab run then a bang; `$` matches only
at end of text (Go regexp without multiline), so the third alternative
requires the whole line to be spaces/tabs. -/
def f77comment (line : List Nat) : Bool :=
  (match line.headD 0 with | c => (line ≠ [] && (c = 99 || c = 42 || c = 33)))
  || (let sp := line.takeWhile (fun c => c = 32 || c = 9)
      sp ≠ [] && (line.drop sp.length).headD 0 = 33 && line.drop sp.length ≠ [])
  || line.all (fun c => c = 32 || c = 9)

/-- `f77nocomment` (part_006:488): pattern `^[c*!](hpf|omp)[$]` — a comment
marker byte, then `hpf` ([104,112,102]) or `omp` ([111,109,112]), then a
literal dollar sign (36). -/
def f77nocomment (line : List Nat) : Bool :=
  match line with
  | c :: rest =>
    (c = 99 || c = 42 || c = 33) &&
    ([104, 112, 102].isPrefixOf rest || [111, 109, 112].isPrefixOf rest) &&
    (rest.drop 3).headD 0 = 36 && rest.drop 3 ≠ []
  | [] => false

/-! ## C-family counter (part_006:996-1159) -/

/-- The syntax fields of a `genericLanguage` table row (part_006:247-257) as
byte lists, with the three flag bits (part_006:305-308) as booleans.
`eolwarn` only controls a diagnostic and is carried for completeness. -/
structure CFSyntax where
  commentleader : List Nat
  commenttrailer : List Nat
  eolcomment : List Nat
  multistring : List Nat
  eolwarn : Bool
  cbs : Bool
  gotick : Bool
  terminator : List Nat
deriving DecidableEq

/-- Modes (part_006:544-547) and comment types (part_006:1006-1007). -/
def stateNORMAL : Nat := 0
def stateINSTRING : Nat := 1
def stateINMULTISTRING : Nat := 2
def stateINCOMMENT : Nat := 3
def commentBLOCK : Nat := 0
def commentTRAILING : Nat := 1

/-- The mutable state of `cFamilyCounter` together with the `nonblank` and
`lexfile` flags of its `countContext` (part_006:549-557). -/
structure CFState where
  mode : Nat := 0
  commentType : Nat := 0
  nonblank : Bool := false
  lexfile : Bool := false
  sloc : Nat := 0
  lloc : Nat := 0
deriving DecidableEq

/-- The closing loop of the char-literal branch (part_006:1044-1049):
read bytes until a single quote (39), a newline (10) or EOF; returns the
final value of `c` (0 at EOF, as `ReadByte` yields a zero byte with
`io.EOF`) and the remaining input. -/
def scanToCharEnd : List Nat → Nat × List Nat
  | [] => (0, [])
  | b :: r => if b = 39 ∨ b = 10 then (b, r) else scanToCharEnd r

/-- The whole char-literal consumption (part_006:1039-1049), applied to the
input after the opening quote: one unconditional read, one more after a
backslash (92), then the closing loop. -/
def scanCharLit (l : List Nat) : Nat × List Nat :=
  match l with
  | [] => (0, [])
  | a :: r => scanToCharEnd (if a = 92 then r.drop 1 else r)

/-- The backtick loop (part_006:1064-1073), applied to the input after the
opening backtick.  At EOF the Go loop prints a warning but has no `break`:
`getachar` keeps returning `(0, io.EOF)` and the loop never exits.  That
divergence is modelled as `none`; `some r` is the input after the closing
backtick (96). -/
def scanBacktick : List Nat → Option (List Nat)
  | [] => none
  | b :: r => if b = 96 then some r else scanBacktick r

/-- The mode-dispatch of one `cFamilyCounter` loop iteration
(part_006:1032-1122) on byte `c` with remaining input `rest`: returns the
state after the branch, the final value of the loop variable `c` (several
branches re-read it), and the remaining input; `none` when the backtick
loop diverges.  `ispeek` is a one-byte lookahead; the Go code indexes
`commentleader[1]`, `commenttrailer[1]` and `eolcomment[1]` only for
catalog rows where those strings have two bytes, so `getD` defaults are
never reached on catalog syntaxes. -/
def cfDispatch (syn : CFSyntax) (st : CFState) (c : Nat) (rest : List Nat) :
    Option (CFState × Nat × List Nat) :=
  if st.mode = 0 then
    if ¬st.lexfile ∧ c = 34 then
      some ({ st with nonblank := true, mode := 1 }, c, rest)
    else if syn.cbs ∧ ¬st.lexfile ∧ c = 39 then
      let p := scanCharLit rest
      some ({ st with nonblank := true }, p.1, p.2)
    else if c = syn.commentleader.headD 0 ∧ rest.headD 0 = syn.commentleader.getD 1 0 ∧ rest ≠ [] then
      some ({ st with mode := 3, commentType := 0 }, syn.commentleader.getD 1 0, rest.drop 1)
    else if syn.eolcomment ≠ [] ∧ c = syn.eolcomment.headD 0 ∧
            (syn.eolcomment.length > 1 ∧ rest.headD 0 = syn.eolcomment.getD 1 0 ∧ rest ≠ []) then
      some ({ st with mode := 3, commentType := 1 }, syn.eolcomment.getD 1 0, rest.drop 1)
    else if syn.multistring ≠ [] ∧ c = syn.multistring.headD 0 then
      some ({ st with mode := 2 }, c, rest)
    else if syn.gotick ∧ c = 96 then
      match scanBacktick rest with
      | none => none
      | some r2 => some (st, 96, r2)
    else if ¬(isspace c = true) then
      some ({ st with nonblank := true }, c, rest)
    else
      some (st, c, rest)
  else if st.mode = 1 then
    let st1 := if ¬(isspace c = true) then { st with nonblank := true } else st
    if c = 34 then some ({ st1 with mode := 0 }, c, rest)
    else if syn.cbs ∧ c = 92 ∧ (rest.headD 0 = 34 ∨ rest.headD 0 = 92) ∧ rest ≠ [] then
      some (st1, rest.headD 0, rest.drop 1)
    else if syn.cbs ∧ c = 92 ∧ rest.headD 0 = 10 ∧ rest ≠ [] then
      some (st1, 10, rest.drop 1)
    else some (st1, c, rest)
  else if st.mode = 2 then
    let st1 := if ¬(isspace c = true) then { st with nonblank := true } else st
    if c = syn.multistring.headD 0 then some ({ st1 with mode := 0 }, c, rest)
    else some (st1, c, rest)
  else
    let st1 := if c = 10 ∧ st.commentType = 1 then { st with mode := 0 } else st
    if st.commentType = 0 ∧ c = syn.commenttrailer.headD 0 ∧
       rest.headD 0 = syn.commenttrailer.getD 1 0 ∧ rest ≠ [] then
      some ({ st1 with mode := 0 }, syn.commenttrailer.getD 1 0, rest.drop 1)
    else some (st1, c, rest)

/-- The common tail of one loop iteration (part_006:1123-1139): on a final
newline, count the pending nonblank line, then `consume("%")` (37, sets the
lex flag and marks the next line nonblank) and `consume("#")` (35, one LLOC
for a cpp directive); finally one LLOC whenever the mode is NORMAL and the
final byte equals the descriptor's terminator byte. -/
def cfPost (syn : CFSyntax) (st : CFState) (c : Nat) (rest : List Nat) :
    CFState × List Nat :=
  let p :=
    if c = 10 then
      let stA := { st with sloc := st.sloc + (if st.nonblank then 1 else 0), nonblank := false }
      let p1 := if rest.headD 0 = 37 ∧ rest ≠ [] then
                  (({ stA with lexfile := true, nonblank := true } : CFState), rest.drop 1)
                else (stA, rest)
      if p1.2.headD 0 = 35 ∧ p1.2 ≠ [] then
        (({ p1.1 with lloc := p1.1.lloc + 1 } : CFState), p1.2.drop 1)
      else p1
    else (st, rest)
  let st2 := if p.1.mode = 0 ∧ syn.terminator ≠ [] ∧ c = syn.terminator.headD 0 then
               { p.1 with lloc := p.1.lloc + 1 }
             else p.1
  (st2, p.2)

/-- One full loop iteration of `cFamilyCounter`: dispatch then the common tail. -/
def cfStep (syn : CFSyntax) (st : CFState) (c : Nat) (rest : List Nat) :
    Option (CFState × List Nat) :=
  (cfDispatch syn st c rest).map (fun r => cfPost syn r.1 r.2.1 r.2.2)

/-- The EOF tail of `cFamilyCounter` (part_006:1141-1144): count a pending
nonblank final line. -/
def cfFinalize (st : CFState) : Nat × Nat :=
  (st.sloc + (if st.nonblank then 1 else 0), st.lloc)

/-- The main loop of `cFamilyCounter`, driven by a fuel argument (every
iteration consumes at least one byte, so fuel `length + 1` always
suffices); `none` on fuel exhaustion or on the diverging backtick loop. -/
def cfRunFuel (syn : CFSyntax) : Nat → CFState → List Nat → Option (Nat × Nat)
  | 0, _, _ => none
  | _ + 1, st, [] => some (cfFinalize st)
  | fuel + 1, st, c :: rest =>
    match cfStep syn st c rest with
    | none => none
    | some p => cfRunFuel syn fuel p.1 p.2

/-- `cFamilyCounter` (part_006:1004-1158) on a whole file, without the
verifier short-circuit: the initial `consume("#")` counts a leading cpp
directive (part_006:1023-1025), then the loop runs to EOF and the pending
nonblank line is counted. -/
def cfCount (syn : CFSyntax) (l : List Nat) : Option (Nat × Nat) :=
  if l.headD 0 = 35 ∧ l ≠ [] then
    cfRunFuel syn ((l.drop 1).length + 1) { lloc := 1 } (l.drop 1)
  else
    cfRunFuel syn (l.length + 1) {} l

/-! ## Pascal-family counter (part_006:1334-1394) -/

/-- The fields of a `pascalLike` table row (part_006:270-276) that the
counter reads. -/
structure PasSyntax where
  bracketcomments : Bool
  terminator : List Nat
deriving DecidableEq

/-- The state of `pascalCounter`. -/
structure PasState where
  mode : Nat := 0
  nonblank : Bool := false
  sloc : Nat := 0
  lloc : Nat := 0
deriving DecidableEq

/-- One loop iteration of `pascalCounter` (part_006:1347-1378) on byte `c`:
in NORMAL mode an opening brace (123, only with `bracketcomments`) or `(*`
(40 then peek 42) opens a comment, non-whitespace marks the line nonblank,
and a newline (10) counts a pending nonblank line; the terminator check uses
the final value of `c` (42 after consuming the star of `(*`).  In comment
mode a closing brace (125) or `*)` (42 then peek 41) returns to NORMAL.
SLOC is not counted on newlines inside comments. -/
def pasStep (syn : PasSyntax) (st : PasState) (c : Nat) (rest : List Nat) :
    PasState × List Nat :=
  if st.mode = 0 then
    let r :=
      if syn.bracketcomments ∧ c = 123 then (({ st with mode := 1 } : PasState), c, rest)
      else if c = 40 ∧ rest.headD 0 = 42 ∧ rest ≠ [] then
        (({ st with mode := 1 } : PasState), 42, rest.drop 1)
      else if ¬(isspace c = true) then (({ st with nonblank := true } : PasState), c, rest)
      else if c = 10 then
        (({ st with sloc := st.sloc + (if st.nonblank then 1 else 0), nonblank := false } : PasState),
         c, rest)
      else (st, c, rest)
    (if syn.terminator ≠ [] ∧ r.2.1 = syn.terminator.headD 0 then
       { r.1 with lloc := r.1.lloc + 1 }
     else r.1, r.2.2)
  else
    if syn.bracketcomments ∧ c = 125 then ({ st with mode := 0 }, rest)
    else if c = 42 ∧ rest.headD 0 = 41 ∧ rest ≠ [] then ({ st with mode := 0 }, rest.drop 1)
    else (st, rest)

/-- EOF tail of `pascalCounter` (part_006:1379-1383). -/
def pasFinalize (st : PasState) : Nat × Nat :=
  (st.sloc + (if st.nonblank then 1 else 0), st.lloc)

/-- The `pascalCounter` loop with fuel (each iteration consumes at least one
byte, so fuel `length + 1` suffices and the `none` branch is never reached
from `pasCount`). -/
def pasRunFuel (syn : PasSyntax) : Nat → PasState → List Nat → Option (Nat × Nat)
  | 0, _, _ => none
  | _ + 1, st, [] => some (pasFinalize st)
  | fuel + 1, st, c :: rest =>
    let p := pasStep syn st c rest
    pasRunFuel syn fuel p.1 p.2

/-- `pascalCounter` (part_006:1334-1394) on a whole file, without the
verifier short-circuit. -/
def pasCount (syn : PasSyntax) (l : List Nat) : Option (Nat × Nat) :=
  pasRunFuel syn (l.length + 1) {} l

example : pasCount ⟨true, [59]⟩ (bytesOf "x := 1;\n{ c }\n") = some (1, 1) := by decide
example : pasCount ⟨true, [59]⟩ (bytesOf "x;\ny") = some (2, 1) := by decide

/-! ## The language catalog (part_006:310-540) -/

/-- One row of the `genericLanguages` table (part_006:247-257): the three
flag bits are spelled out as booleans (`nf` = none set, part_006:305-308),
and the verifier function pointer is recorded by name (`none` = `nil`). -/
structure genericLanguage where
  name : String
  suffix : String
  commentleader : String
  commenttrailer : String
  eolcomment : String
  multistring : String
  eolwarn : Bool
  cbs : Bool
  gotick : Bool
  terminator : String
  verifier : Option String
deriving DecidableEq

set_option maxHeartbeats 2000000

/-- The `genericLanguages` table (part_006:328-422), in declared order;
rows commented out in the source (html, htm, xml, turing) are omitted. -/
def genericLanguages : List genericLanguage := [
  ⟨"c", ".c", "/*", "*/", "//", "", true, true, false, ";", none⟩,
  ⟨"c-header", ".h", "/*", "*/", "//", "", true, true, false, ";", none⟩,
  ⟨"c-header", ".hpp", "/*", "*/", "//", "", true, true, false, ";", none⟩,
  ⟨"c-header", ".hxx", "/*", "*/", "//", "", true, true, false, ";", none⟩,
  ⟨"yacc", ".y", "/*", "*/", "//", "", true, true, false, ";", none⟩,
  ⟨"lex", ".l", "/*", "*/", "//", "", true, true, false, ";", some "reallyLex"⟩,
  ⟨"c++", ".cpp", "/*", "*/", "//", "", true, true, false, ";", none⟩,
  ⟨"c++", ".cxx", "/*", "*/", "//", "", true, true, false, ";", none⟩,
  ⟨"c++", ".cc", "/*", "*/", "//", "", true, true, false, ";", none⟩,
  ⟨"java", ".java", "/*", "*/", "//", "", true, true, false, ";", none⟩,
  ⟨"javascript", ".js", "/*", "*/", "//", "", true, true, false, "", none⟩,
  ⟨"obj-c", ".m", "/*", "*/", "//", "", true, true, false, ";", some "reallyObjectiveC"⟩,
  ⟨"c#", ".cs", "/*", "*/", "//", "", true, true, false, ";", none⟩,
  ⟨"php", ".php", "/*", "*/", "//", "", true, true, false, ";", none⟩,
  ⟨"php3", ".php", "/*", "*/", "//", "", true, true, false, ";", none⟩,
  ⟨"php4", ".php", "/*", "*/", "//", "", true, true, false, ";", none⟩,
  ⟨"php5", ".php", "/*", "*/", "//", "", true, true, false, ";", none⟩,
  ⟨"php6", ".php", "/*", "*/", "//", "", true, true, false, ";", none⟩,
  ⟨"php7", ".php", "/*", "*/", "//", "", true, true, false, ";", none⟩,
  ⟨"go", ".go", "/*", "*/", "//", "`", true, true, true, "", none⟩,
  ⟨"swift", ".swift", "/*", "*/", "//", "", true, false, false, "", none⟩,
  ⟨"sql", ".sql", "/*", "*/", "--", "", false, false, false, "", none⟩,
  ⟨"haskell", ".hs", "\x7b-", "-\x7d", "--", "", true, false, false, "", none⟩,
  ⟨"pl/1", ".pl1", "/*", "*/", "", "", true, false, false, ";", none⟩,
  ⟨"asm", ".asm", "/*", "*/", ";", "", true, false, false, "\n", none⟩,
  ⟨"asm", ".s", "/*", "*/", ";", "", true, false, false, "\n", none⟩,
  ⟨"asm", ".S", "/*", "*/", ";", "", true, false, false, "\n", none⟩,
  ⟨"ada", ".ada", "", "", "--", "", true, false, false, ";", none⟩,
  ⟨"ada", ".adb", "", "", "--", "", true, false, false, ";", none⟩,
  ⟨"ada", ".ads", "", "", "--", "", true, false, false, ";", none⟩,
  ⟨"ada", ".pad", "", "", "--", "", true, false, false, "", none⟩,
  ⟨"css", ".css", "/*", "*/", "", "", true, false, false, "", none⟩,
  ⟨"makefile", ".mk", "", "", "#", "", true, false, false, "", none⟩,
  ⟨"makefile", "Makefile", "", "", "#", "", true, false, false, "", none⟩,
  ⟨"makefile", "makefile", "", "", "#", "", true, false, false, "", none⟩,
  ⟨"makefile", "Imakefile", "", "", "#", "", true, false, false, "", none⟩,
  ⟨"m4", ".m4", "", "", "#", "", true, false, false, "", none⟩,
  ⟨"lisp", ".lisp", "", "", ";", "", true, false, false, "", none⟩,
  ⟨"lisp", ".lsp", "", "", ";", "", true, false, false, "", none⟩,
  ⟨"lisp", ".cl", "", "", ";", "", true, false, false, "", none⟩,
  ⟨"lisp", ".l", "", "", ";", "", true, false, false, "", none⟩,
  ⟨"scheme", ".scm", "", "", ";", "", true, false, false, "", none⟩,
  ⟨"elisp", ".el", "", "", ";", "", true, false, false, "", none⟩,
  ⟨"clojure", ".clj", "", "", ";", "", true, false, false, "", none⟩,
  ⟨"clojure", ".cljc", "", "", ";", "", true, false, false, "", none⟩,
  ⟨"clojurescript", ".cljs", "", "", ";", "", true, false, false, "", none⟩,
  ⟨"cobol", ".CBL", "", "", "*", "", true, false, false, "", none⟩,
  ⟨"cobol", ".cbl", "", "", "*", "", true, false, false, "", none⟩,
  ⟨"cobol", ".COB", "", "", "*", "", true, false, false, "", none⟩,
  ⟨"cobol", ".cob", "", "", "*", "", true, false, false, "", none⟩,
  ⟨"eiffel", ".e", "", "", "--", "", true, false, false, "", none⟩,
  ⟨"sather", ".sa", "", "", "--", "", true, false, false, ";", some "reallySather"⟩,
  ⟨"lua", ".lua", "--[[", "]]", "--", "", true, false, false, "", none⟩,
  ⟨"clu", ".clu", "", "", "%", "", true, false, false, ";", none⟩,
  ⟨"rust", ".rs", "", "", "//", "", true, false, false, ";", none⟩,
  ⟨"rust", ".rlib", "", "", "//", "", true, false, false, ";", none⟩,
  ⟨"erlang", ".erl", "", "", "%", "", true, false, false, "", none⟩,
  ⟨"vhdl", ".vhdl", "", "", "--", "", false, false, false, "", none⟩,
  ⟨"verilog", ".v", "/*", "*/", "//", "", true, false, false, ";", none⟩,
  ⟨"verilog", ".vh", "/*", "*/", "//", "", true, false, false, ";", none⟩,
  ⟨"d", ".d", "/+", "+/", "//", "", true, false, false, ";", none⟩,
  ⟨"occam", ".f", "", "", "//", "", true, false, false, "", some "reallyOccam"⟩,
  ⟨"f#", ".fs", "", "", "//", "", true, false, false, "", none⟩,
  ⟨"f#", ".fsi", "", "", "//", "", true, false, false, "", none⟩,
  ⟨"f#", ".fsx", "", "", "//", "", true, false, false, "", none⟩,
  ⟨"f#", ".fscript", "", "", "//", "", true, false, false, "", none⟩,
  ⟨"kotlin", ".kt", "", "", "//", "", true, false, false, "", none⟩,
  ⟨"dart", ".dart", "", "", "//", "", true, false, false, ";", none⟩,
  ⟨"prolog", ".pl", "", "", "%", "", true, false, false, ".", some "reallyProlog"⟩,
  ⟨"mumps", ".m", "", "", ";", "", true, false, false, "", none⟩,
  ⟨"mumps", ".mps", "", "", ";", "", true, false, false, "", none⟩,
  ⟨"mumps", ".m", "", "", ";", "", true, false, false, "", none⟩,
  ⟨"pop11", ".p", "", "", ";", "", true, false, false, "", some "reallyPOP11"⟩,
  ⟨"rebol", ".r", "", "", "comment", "", false, false, false, "", none⟩,
  ⟨"simula", ".sim", "", "", "comment", "", false, false, false, ";", none⟩,
  ⟨"icon", ".icn", "", "", "#", "", false, false, false, "", none⟩,
  ⟨"algol60", ".alg", "", "", "COMMENT", "", false, false, false, ";", none⟩,
  ⟨"autotools", "config.h.in", "/*", "*/", "//", "", true, false, false, "", none⟩,
  ⟨"autotools", "autogen.sh", "", "", "#", "", true, false, false, "", none⟩,
  ⟨"autotools", "configure.in", "", "", "#", "", true, false, false, "", none⟩,
  ⟨"autotools", "Makefile.in", "", "", "#", "", true, false, false, "", none⟩,
  ⟨"autotools", ".am", "", "", "#", "", true, false, false, "", none⟩,
  ⟨"autotools", ".ac", "", "", "#", "", true, false, false, "", none⟩,
  ⟨"autotools", ".mf", "", "", "#", "", true, false, false, "", none⟩,
  ⟨"scons", "SConstruct", "", "", "#", "", true, false, false, "", none⟩]

/-- One row of the `scriptingLanguages` table (part_006:261-266). -/
structure scriptingLanguage where
  name : String
  suffix : String
  hashbang : String
  verifier : Option String
deriving DecidableEq

/-- The `scriptingLanguages` table (part_006:450-459). -/
def scriptingLanguages : List scriptingLanguage := [
  ⟨"tcl", ".tcl", "tcl", none⟩,
  ⟨"tcl", ".tcl", "wish", none⟩,
  ⟨"csh", ".csh", "csh", none⟩,
  ⟨"shell", ".sh", "sh", none⟩,
  ⟨"ruby", ".rb", "ruby", none⟩,
  ⟨"awk", ".awk", "awk", none⟩,
  ⟨"sed", ".sed", "sed", none⟩,
  ⟨"expect", ".exp", "expect", some "reallyExpect"⟩]

/-- One row of the `pascalLikes` table (part_006:270-276). -/
structure pascalLike where
  name : String
  suffix : String
  bracketcomments : Bool
  terminator : String
  verifier : Option String
deriving DecidableEq

/-- The `pascalLikes` table (part_006:460-473). -/
def pascalLikes : List pascalLike := [
  ⟨"pascal", ".pas", true, ";", none⟩,
  ⟨"pascal", ".p", true, ";", some "reallyPascal"⟩,
  ⟨"pascal", ".inc", true, ";", some "reallyPascal"⟩,
  ⟨"modula3", ".i3", false, ";", none⟩,
  ⟨"modula3", ".m3", false, ";", none⟩,
  ⟨"modula3", ".ig", false, ";", none⟩,
  ⟨"modula3", ".mg", false, ";", none⟩,
  ⟨"ml", ".ml", false, "", none⟩,
  ⟨"mli", ".ml", false, "", none⟩,
  ⟨"mll", ".ml", false, "", none⟩,
  ⟨"mly", ".ml", false, "", none⟩,
  ⟨"oberon", ".mod", false, ";", none⟩]

/-- One row of the `fortranLikes` table (part_006:287-292); the two compiled
regexes are recorded by their source strings. -/
structure fortranLike where
  name : String
  suffix : String
  comment : String
  nocomment : String
deriving DecidableEq

/-- The `fortranLikes` table (part_006:492-498).  `fortranLike` rows have no
verifier field at all. -/
def fortranLikes : List fortranLike := [
  ⟨"fortran90", ".f90", "^([ \t]*!|[ \t]*$)", "^[ \t]*!(hpf|omp)[$]"⟩,
  ⟨"fortran95", ".f95", "^([ \t]*!|[ \t]*$)", "^[ \t]*!(hpf|omp)[$]"⟩,
  ⟨"fortran03", ".f03", "^([ \t]*!|[ \t]*$)", "^[ \t]*!(hpf|omp)[$]"⟩,
  ⟨"fortran", ".f77", "^([c*!]|[ \t]+!|[ \t]*$)", "^[c*!](hpf|omp)[$]"⟩,
  ⟨"fortran", ".f", "^([c*!]|[ \t]+!|[ \t]*$)", "^[c*!](hpf|omp)[$]"⟩]

/-- `cHeaderPriority` (part_006:536). -/
def cHeaderPriority : List String := ["c", "c++", "obj-c"]

/-- `strings.HasSuffix(path, suffix)`. -/
def strHasSuffix (s suffix : String) : Bool := suffix.data.isSuffixOf s.data

/-- Conversion of a catalog row into the byte-level syntax consumed by the
C-family counter. -/
def toCFSyntax (g : genericLanguage) : CFSyntax :=
  ⟨bytesOf g.commentleader, bytesOf g.commenttrailer, bytesOf g.eolcomment,
   bytesOf g.multistring, g.eolwarn, g.cbs, g.gotick, bytesOf g.terminator⟩

/-! ## Classification and aggregation (part_006:1411-1508, 1599-1604, 1830-1885) -/

/-- `SourceStat` (part_006:233-239). -/
structure SourceStat where
  Path : String
  Language : String
  SLOC : Nat
  LLOC : Nat
deriving DecidableEq

/-- What the individual-mode branch of `main` prints for one stat. -/
inductive IndivOutput
  | fullLine (path lang : String) (sloc lloc : Nat)
  | pathOnly (path : String)
  | silent
deriving DecidableEq

/-- The individual-mode report branch of `main` (part_006:1844-1853): with
`-i` and no `-u`, print the full `path language SLOC LLOC` line for stats
with positive SLOC; with `-u`, print just the path for every stat whose
SLOC is zero. -/
def individualReport (unclassified : Bool) (st : SourceStat) : IndivOutput :=
  if ¬unclassified ∧ st.SLOC > 0 then .fullLine st.Path st.Language st.SLOC st.LLOC
  else if unclassified ∧ st.SLOC = 0 then .pathOnly st.Path
  else .silent

/-- The `SourceStat` that `Generic` (part_006:1411-1431) returns when the
generated-file detector fires inside the catalog scan: the zero-valued
`stat` declared at part_006:1412 is returned unchanged (part_006:1430-1431),
so the language is empty and both counts are zero; the caller `filter`
(part_006:1591-1593) then fills in the path. -/
def generatedRejectStat (path : String) : SourceStat := ⟨path, "", 0, 0⟩

/-- `countRecord` (part_006:1599-1604). -/
structure countRecord where
  language : String
  slinecount : Nat
  llinecount : Nat
  filecount : Nat
deriving DecidableEq

/-- The per-language map `counts` of `main` modelled as an association
list.  Reading an absent key yields Go's zero `countRecord`. -/
def lookupAssoc (m : List (String × countRecord)) (k : String) : Option countRecord :=
  (m.find? (fun p => p.1 == k)).map (fun p => p.2)

/-- Go map read `counts[lang]` with the zero-value default. -/
def lookupCount (m : List (String × countRecord)) (k : String) : countRecord :=
  (lookupAssoc m k).getD ⟨"", 0, 0, 0⟩

/-- Go map write `counts[lang] = v`. -/
def setAssoc (m : List (String × countRecord)) (k : String) (v : countRecord) :
    List (String × countRecord) :=
  if (m.find? (fun p => p.1 == k)).isSome then
    m.map (fun p => if p.1 == k then (k, v) else p)
  else m ++ [(k, v)]

/-- The aggregation step of `main`'s pipeline loop (part_006:1856-1866):
stats with zero SLOC are not aggregated. -/
def updateCounts (m : List (String × countRecord)) (st : SourceStat) :
    List (String × countRecord) :=
  if st.SLOC > 0 then
    let tmp := lookupCount m st.Language
    setAssoc m st.Language
      ⟨st.Language, tmp.slinecount + st.SLOC, tmp.llinecount + st.LLOC, tmp.filecount + 1⟩
  else m

/-- The priority scan inside the c-header reassignment (part_006:1876-1884):
on the first language of `cHeaderPriority` with nonzero SLOC, add the
c-header SLOC (and only the SLOC) to it, delete the c-header bucket and
stop. -/
def reassignLoop (m : List (String × countRecord)) : List String → List (String × countRecord)
  | [] => m
  | lang :: rest =>
    if 0 < (lookupCount m lang).slinecount then
      let tmp := lookupCount m lang
      (setAssoc m lang
        { tmp with slinecount := tmp.slinecount + (lookupCount m "c-header").slinecount }).filter
        (fun p => p.1 != "c-header")
    else reassignLoop m rest

/-- The c-header reassignment of `main` (part_006:1873-1885). -/
def reassignHeaders (m : List (String × countRecord)) : List (String × countRecord) :=
  if 0 < (lookupCount m "c-header").slinecount then reassignLoop m cHeaderPriority
  else m

/-- The suffix scan of `Generic` (part_006:1427-1429): the first catalog row
whose suffix matches the path wins. -/
def findLang (path : String) : Option genericLanguage :=
  genericLanguages.find? (fun g => strHasSuffix path g.suffix)

/-- The `.h` c-header catalog row (part_006:331). -/
def hRow : genericLanguage :=
  ⟨"c-header", ".h", "/*", "*/", "//", "", true, true, false, ";", none⟩

/-- The `.c` catalog row (part_006:330). -/
def cRow : genericLanguage :=
  ⟨"c", ".c", "/*", "*/", "//", "", true, true, false, ";", none⟩

/-- The `.asm` catalog row (part_006:358): end-of-line comment `;` (one
byte), terminator the newline byte. -/
def asmRow : genericLanguage :=
  ⟨"asm", ".asm", "/*", "*/", ";", "", true, false, false, "\n", none⟩

/-- The `.go` catalog row (part_006:352): multistring is the backtick and
the `gotick` flag is set. -/
def goRow : genericLanguage :=
  ⟨"go", ".go", "/*", "*/", "//", "`", true, true, true, "", none⟩

example : findLang "x.h" = some hRow := by decide
example : findLang "x.c" = some cRow := by decide
example : findLang "x.asm" = some asmRow := by decide
example : findLang "x.go" = some goRow := by decide

/-- Content of the C2 scenario's header file. -/
def hContent : List Nat := bytesOf "int f(void);\n"

/-- Content of the C2 scenario's C file. -/
def cContent : List Nat := bytesOf "#include \"x.h\"\nint f(void){return 0;}\n"

/-- The stat `Generic` produces for path `x.h` with content `hContent`: the
first matching row is the `.h` c-header row (it has no verifier, the
generated-file detector does not match this content, and its nonempty
comment leader selects `cFamilyCounter`); the language is reported because
SLOC is positive (part_006:1427-1443). -/
def hStat : SourceStat :=
  ⟨"x.h", "c-header", ((cfCount (toCFSyntax hRow) hContent).getD (0, 0)).1,
   ((cfCount (toCFSyntax hRow) hContent).getD (0, 0)).2⟩

/-- The stat `Generic` produces for path `x.c` with content `cContent`
(first matching row: the `.c` row; same reasoning as for `hStat`). -/
def cStat : SourceStat :=
  ⟨"x.c", "c", ((cfCount (toCFSyntax cRow) cContent).getD (0, 0)).1,
   ((cfCount (toCFSyntax cRow) cContent).getD (0, 0)).2⟩

/-- The aggregated and reassigned report for the C2 two-file tree. -/
def c2Final : List (String × countRecord) :=
  reassignHeaders ([hStat, cStat].foldl updateCounts [])

example : hStat = ⟨"x.h", "c-header", 1, 1⟩ := by decide
example : cStat = ⟨"x.c", "c", 2, 2⟩ := by decide

/-! ## The Pascal verifier `reallyPascal` (part_006:829-945) -/

/-- Regex byte class `[A-Za-z]`. -/
def isAlphaByte (c : Nat) : Bool := (65 ≤ c && c ≤ 90) || (97 ≤ c && c ≤ 122)

/-- Regex byte class `\w` = `[0-9A-Za-z_]` (for `\b` boundaries). -/
def isWordByte (c : Nat) : Bool := isAlphaByte c || (48 ≤ c && c ≤ 57) || c = 95

/-- Regex byte class `\s` = `[\t\n\f\r ]` (Go regexp Perl class). -/
def isRegexSpace (c : Nat) : Bool := c = 9 || c = 10 || c = 12 || c = 13 || c = 32

/-- ASCII lower-casing, for the `(?i)` flag. -/
def toLowerByte (c : Nat) : Nat := if 65 ≤ c ∧ c ≤ 90 then c + 32 else c

/-- Case-insensitive list-prefix comparison (the `(?i)` flag). -/
def ciStarts : List Nat → List Nat → Bool
  | [], _ => true
  | _ :: _, [] => false
  | p :: ps, c :: cs => toLowerByte p = toLowerByte c && ciStarts ps cs

/-- Try a position-wise matcher at every position of the line; `prev` is the
byte before the current position (`none` at start of text), as `\b` needs. -/
def scanWithPrev (p : Option Nat → List Nat → Bool) : Option Nat → List Nat → Bool
  | prev, [] => p prev []
  | prev, c :: rest => p prev (c :: rest) || scanWithPrev p (some c) rest

/-- Matcher for `(?i)\b<w>\s+[A-Za-z]` at one position: a word boundary
(previous byte absent or not a word byte), the word case-insensitively, a
nonempty whitespace run, then a letter.  The whitespace run may be taken
maximal because a letter is never whitespace. -/
def wordSpaceAlphaAt (w : List Nat) (prev : Option Nat) (l : List Nat) : Bool :=
  (match prev with | some pc => !isWordByte pc | none => true) &&
  ciStarts w l &&
  (let r := l.drop w.length
   let k := (r.takeWhile isRegexSpace).length
   decide (0 < k) && !(r.drop k).isEmpty && isAlphaByte ((r.drop k).headD 0))

/-- Matcher for `(?i)\b<w>\b` at one position. -/
def wordAt (w : List Nat) (prev : Option Nat) (l : List Nat) : Bool :=
  (match prev with | some pc => !isWordByte pc | none => true) &&
  ciStarts w l &&
  ((l.drop w.length).isEmpty || !isWordByte ((l.drop w.length).headD 0))

/-- `(?i)\b<w>\s+[A-Za-z]` anywhere in the line. -/
def hasWordSpaceAlpha (w l : List Nat) : Bool := scanWithPrev (wordSpaceAlphaAt w) none l

/-- `(?i)\b<w>\b` anywhere in the line. -/
def hasWord (w l : List Nat) : Bool := scanWithPrev (wordAt w) none l

/-- `(?i)^\s*<w>\s+`: optional leading whitespace (maximal, since the word
starts with a letter), the word, then at least one whitespace byte. -/
def leadingKw (w l : List Nat) : Bool :=
  let r := l.drop (l.takeWhile isRegexSpace).length
  ciStarts w r && !(r.drop w.length).isEmpty && isRegexSpace ((r.drop w.length).headD 0)

/-- Matcher for `(?i)end\.\s*$` at one position: `end.` case-insensitively,
then only whitespace up to the end of the text. -/
def endDotAt (l : List Nat) : Bool :=
  ciStarts (bytesOf "end.") l && (l.drop 4).all isRegexSpace

/-- `(?i)end\.\s*$` anywhere in the line (no `\b`: part_006:928). -/
def hasEndDot (l : List Nat) : Bool := scanWithPrev (fun _ r => endDotAt r) none l

/-- `drop` (part_006:624-630): compiles the excision regex and computes
`cre.ReplaceAllLiteral(ctx.line, []byte(""))`, but only compares that fresh
slice against nil and never stores it back into `ctx.line`; the line the
verifier goes on to match is unchanged, so the effect on the line is the
identity. -/
def dropEffect (line : List Nat) : List Nat := line

/-- The evidence flags of `reallyPascal` (part_006:880-885). -/
structure PascalEvidence where
  hasProgram : Bool := false
  hasUnit : Bool := false
  hasModule : Bool := false
  hasProcedureOrFunction : Bool := false
  hasBegin : Bool := false
  foundTerminatingEnd : Bool := false
deriving DecidableEq

/-- One line of `reallyPascal`'s loop (part_006:890-931): the two `drop`
calls (patterns `\{.*?\}` and `\(\*.*\*\)`) leave the line unchanged (see
`dropEffect`); then each keyword regex may set its evidence flag. -/
def reallyPascalLine (ev : PascalEvidence) (line0 : List Nat) : PascalEvidence :=
  let line := dropEffect (dropEffect line0)
  { hasProgram := ev.hasProgram || hasWordSpaceAlpha (bytesOf "program") line,
    hasUnit := ev.hasUnit || hasWordSpaceAlpha (bytesOf "unit") line,
    hasModule := ev.hasModule || hasWordSpaceAlpha (bytesOf "module") line,
    hasProcedureOrFunction := ev.hasProcedureOrFunction
      || hasWord (bytesOf "procedure") line || hasWord (bytesOf "function") line
      || leadingKw (bytesOf "interface") line || leadingKw (bytesOf "implementation") line,
    hasBegin := ev.hasBegin || hasWord (bytesOf "begin") line,
    foundTerminatingEnd := ev.foundTerminatingEnd || hasEndDot line }

/-- `reallyPascal` (part_006:829-945): accumulate evidence over the lines,
then combine it (part_006:935-938). -/
def reallyPascal (content : List Nat) : Bool :=
  let ev := (splitLines content).foldl reallyPascalLine {}
  ((ev.hasUnit || ev.hasProgram) && ev.hasProcedureOrFunction && ev.hasBegin
      && ev.foundTerminatingEnd)
    || (ev.hasModule && ev.foundTerminatingEnd)
    || (ev.hasProgram && ev.hasBegin && ev.foundTerminatingEnd)

example : reallyPascal (bytesOf "program p;\nbegin\nend.\n") = true := by decide
example : reallyPascal (bytesOf "int main(). x\n") = false := by decide

/-- The SLOC component of the C-family counter (`none` when the counter
never finishes). -/
def cfSloc (syn : CFSyntax) (l : List Nat) : Option Nat := (cfCount syn l).map Prod.fst

/-- The SLOC component of the Pascal-family counter. -/
def pasSloc (syn : PasSyntax) (l : List Nat) : Option Nat := (pasCount syn l).map Prod.fst

/-- No comment or string delimiter of the descriptor contains the newline
byte.  Every row of the catalog satisfies this. -/
def cfNoNewlineDelims (syn : CFSyntax) : Prop :=
  10 ∉ syn.commentleader ∧ 10 ∉ syn.commenttrailer ∧
  10 ∉ syn.eolcomment ∧ 10 ∉ syn.multistring

instance (syn : CFSyntax) : Decidable (cfNoNewlineDelims syn) := by
  unfold cfNoNewlineDelims; infer_instance

/-- Conversion of a `pascalLikes` row into the byte-level syntax consumed by
the Pascal-family counter. -/
def toPasSyntax (p : pascalLike) : PasSyntax := ⟨p.bracketcomments, bytesOf p.terminator⟩

/-- The `.pas` pascalLikes row (part_006:461). -/
def pasRow : pascalLike := ⟨"pascal", ".pas", true, ";", none⟩

/-! ## Claim theorems -/

/-- C2, counterexample: for the two-file tree `x.h` = `int f(void);\n` and
`x.c` = `#include "x.h"\nint f(void){return 0;}\n`, the claim's predicted
final report (no c-header bucket, c bucket with SLOC=3 and files=2) does not
hold: the reassignment moves only the SLOC, so the c bucket keeps
filecount 1. -/
theorem c2_counterexample :
    ¬(lookupAssoc c2Final "c-header" = none ∧
      (lookupCount c2Final "c").slinecount = 3 ∧
      (lookupCount c2Final "c").filecount = 2) := by
  decide

/-- C2, amended: after aggregation, nonzero c-header SLOC is added to the
SLOC of the first of {c, c++, obj-c} with nonzero SLOC and the c-header
bucket is deleted, but the LLOC and file counts are not transferred; on the
two-file tree the c bucket therefore reports SLOC=3, LLOC=2, files=1, and
no c-header bucket remains. -/
theorem c2_amended_redistribution :
    lookupAssoc c2Final "c-header" = none ∧
    lookupCount c2Final "c" = ⟨"c", 3, 2, 1⟩ := by
  decide

/-- C3: in the C-family counter the end-of-line-comment branch demands a
token of length at least two whose first two bytes match
(part_006:1055), so the asm descriptor's one-byte token `;` (59) never
opens a comment: at a semicolon in NORMAL mode the mode stays NORMAL, and
the file `; x\n` — a pure comment line under the catalog's asm syntax —
is counted as one SLOC (plus one LLOC from asm's newline terminator)
instead of zero. -/
theorem c3_semicolon_no_comment :
    (cfDispatch (toCFSyntax asmRow) {} 59 (bytesOf " x\n")).map (fun r => r.1.mode)
        = some stateNORMAL ∧
    cfCount (toCFSyntax asmRow) (bytesOf "; x\n") = some (1, 1) := by
  decide

/-- C4, counterexample: for the Go descriptor a backtick in NORMAL mode is
taken by the multiline-string branch — the nonempty multistring delimiter
shadows the `gotick` branch — so nothing is scanned forward (the remaining
input is untouched and the mode becomes INMULTISTRING), and on
`` `a\nb`c\n `` the newline inside the backtick string is counted (SLOC 2),
where a forward scan to the matching backtick would have skipped it. -/
theorem c4_counterexample :
    cfDispatch (toCFSyntax goRow) {} 96 [97, 96]
        = some (⟨stateINMULTISTRING, 0, false, false, 0, 0⟩, 96, [97, 96]) ∧
    (cfCount (toCFSyntax goRow) (bytesOf "`a\nb`c\n")).map Prod.fst = some 2 := by
  decide

/-- C5: the `-u` listing of `main` prints the path of every stat whose SLOC
is zero (part_006:1848-1852); a file rejected by the generated-file detector
yields the zero-valued stat of `Generic` (empty language, SLOC 0) and is
therefore printed by `-u` exactly like a genuinely unclassified file — the
claim's exclusion of rejected-generated files from `-u` does not exist in
the code. -/
theorem c5_generated_printed_under_u :
    individualReport true (generatedRejectStat "gen.c") = .pathOnly "gen.c" ∧
    individualReport true ⟨"mystery.xyz", "", 0, 0⟩ = .pathOnly "mystery.xyz" := by
  decide

/-- C6: the catalog violates the claimed self-consistency invariant: six
verifier-less `genericLanguages` rows match the extension `.php`
(php, php3..php7), two verifier-less rows match `.m` (the duplicated mumps
row), and four verifier-less `pascalLikes` rows match `.ml`
(ml, mli, mll, mly) — each more than the single verifier-less fallback the
invariant allows. -/
theorem c6_duplicate_catalog_entries :
    (genericLanguages.filter
        (fun g => g.verifier.isNone && strHasSuffix "x.php" g.suffix)).length = 6 ∧
    (genericLanguages.filter
        (fun g => g.verifier.isNone && strHasSuffix "x.m" g.suffix)).length = 2 ∧
    (pascalLikes.filter
        (fun p => p.verifier.isNone && strHasSuffix "x.ml" p.suffix)).length = 4 := by
  decide

/-- C7, counterexample: on the Python file `x="""a\nb"""\n` the counter does
not return SLOC=1, LLOC=1. -/
theorem c7_counterexample :
    ¬(pythonCount (bytesOf "x=\"\"\"a\nb\"\"\"\n") = (1, 1)) := by
  decide

/-- C7, amended: on `x="""a\nb"""\n` the counter returns SLOC=2, LLOC=2 —
the opening line counts, and the closing line also counts because the
non-docstring trailer is replaced by a placeholder byte, which is exactly
the behaviour the spec's placeholder sentence describes. -/
theorem c7_amended_python_count :
    pythonCount (bytesOf "x=\"\"\"a\nb\"\"\"\n") = (2, 2) := by
  decide

/-- C8: on the Fortran-77 file `C comment line\n      print *,1\n` the
counter returns SLOC=2, not 1: the `f77comment` class `[c*!]` holds only
the lowercase letter c, so the capital-C comment line fails the is-comment
regex and is counted as code. -/
theorem c8_fortran_capital_comment :
    fortranCount f77comment f77nocomment (bytesOf "C comment line\n      print *,1\n") = 2 ∧
    f77comment (bytesOf "C comment line\n") = false := by
  decide

/-- C9: `reallyPascal` accepts a file whose keywords occur only inside a
`{...}` comment: `drop` never stores the excised line back, so the
heuristics run on the raw line and `{ program foo begin function }\nend.\n`
verifies as Pascal; with the comment body actually absent (`\nend.\n`) the
verifier refuses. -/
theorem c9_pascal_verifier_comment_keywords :
    reallyPascal (bytesOf "{ program foo begin function }\nend.\n") = true ∧
    reallyPascal (bytesOf "\nend.\n") = false := by
  decide

/-! ## Supporting lemmas: line-based counters drop an unterminated tail -/

theorem splitLinesAux_no_nl (t : List Nat) (ht : ∀ c ∈ t, c ≠ 10) (acc : List Nat) :
    splitLinesAux acc t = [] := by
  induction t generalizing acc with
  | nil => rfl
  | cons c rest ih =>
    simp only [splitLinesAux]
    rw [if_neg (ht c (List.mem_cons_self c rest))]
    exact ih (fun d hd => ht d (List.mem_cons_of_mem c hd)) _

theorem splitLinesAux_append_no_nl (t : List Nat) (ht : ∀ c ∈ t, c ≠ 10) :
    ∀ (l acc : List Nat), splitLinesAux acc (l ++ t) = splitLinesAux acc l := by
  intro l
  induction l with
  | nil =>
    intro acc
    simpa using splitLinesAux_no_nl t ht acc
  | cons c rest ih =>
    intro acc
    simp only [List.cons_append, splitLinesAux]
    by_cases hc : c = 10
    · rw [if_pos hc, if_pos hc, show rest.append t = rest ++ t from rfl, ih]
    · rw [if_neg hc, if_neg hc, show rest.append t = rest ++ t from rfl, ih]

theorem splitLines_append_no_nl (l t : List Nat) (ht : ∀ c ∈ t, c ≠ 10) :
    splitLines (l ++ t) = splitLines l :=
  splitLinesAux_append_no_nl t ht l []

/-! ## Supporting lemmas: the Pascal counter and the appended final newline -/

theorem pasStep_len (syn : PasSyntax) (st : PasState) (c : Nat) (r : List Nat) :
    (pasStep syn st c r).2.length ≤ r.length := by
  simp only [pasStep]
  split_ifs <;> simp [List.length_drop]

theorem pasStep_append (syn : PasSyntax) (st : PasState) (c : Nat) (r : List Nat) :
    pasStep syn st c (r ++ [10]) = ((pasStep syn st c r).1, (pasStep syn st c r).2 ++ [10]) := by
  match r with
  | [] => simp only [pasStep]; split_ifs <;> simp_all
  | x :: r2 => simp only [pasStep, List.cons_append]; split_ifs <;> simp_all

theorem pasRunFuel_congr (syn : PasSyntax) :
    ∀ (n : Nat), ∀ (m : Nat) (st : PasState) (l : List Nat),
      l.length < n → l.length < m →
      pasRunFuel syn n st l = pasRunFuel syn m st l := by
  intro n
  induction n with
  | zero => intro m st l hn _; omega
  | succ n ih =>
    intro m st l hn hm
    match m, l with
    | m + 1, [] => rfl
    | m + 1, c :: rest =>
      simp only [pasRunFuel]
      exact ih m (pasStep syn st c rest).1 (pasStep syn st c rest).2
        (lt_of_le_of_lt (pasStep_len syn st c rest) (by simpa using hn))
        (lt_of_le_of_lt (pasStep_len syn st c rest) (by simpa using hm))

theorem pasStep_newline_final (syn : PasSyntax) (st : PasState) :
    (pasStep syn st 10 []).2 = [] ∧
    (pasFinalize (pasStep syn st 10 []).1).1 = (pasFinalize st).1 := by
  simp only [pasStep, pasFinalize]
  split_ifs <;> simp_all [isspace]

theorem pas_append_aux (syn : PasSyntax) :
    ∀ (n : Nat) (l : List Nat), l.length ≤ n → ∀ (st : PasState),
      (pasRunFuel syn (l.length + 2) st (l ++ [10])).map Prod.fst
        = (pasRunFuel syn (l.length + 1) st l).map Prod.fst := by
  intro n
  induction n with
  | zero =>
    intro l hl st
    have hnil : l = [] := List.eq_nil_of_length_eq_zero (by omega)
    subst hnil
    simp only [List.nil_append, pasRunFuel]
    rw [(pasStep_newline_final syn st).1]
    simp [pasRunFuel, (pasStep_newline_final syn st).2]
  | succ n ih =>
    intro l hl st
    match l with
    | [] =>
      simp only [List.nil_append, pasRunFuel]
      rw [(pasStep_newline_final syn st).1]
      simp [pasRunFuel, (pasStep_newline_final syn st).2]
    | c :: rest =>
      simp only [List.length_cons] at hl
      simp only [List.cons_append, pasRunFuel, List.length_cons]
      rw [show rest.append [10] = rest ++ [10] from rfl]
      rw [pasStep_append syn st c rest]
      have hlen := pasStep_len syn st c rest
      set q := pasStep syn st c rest with hq
      have h1 : pasRunFuel syn (rest.length + 2) q.1 (q.2 ++ [10])
          = pasRunFuel syn (q.2.length + 1 + 1) q.1 (q.2 ++ [10]) := by
        apply pasRunFuel_congr <;> simp only [List.length_append, List.length_singleton] <;> omega
      have h2 : pasRunFuel syn (rest.length + 1) q.1 q.2
          = pasRunFuel syn (q.2.length + 1) q.1 q.2 := by
        apply pasRunFuel_congr <;> omega
      rw [h1, h2]
      exact ih q.2 (by omega) q.1

/-- Appending a terminating newline to any input never changes the Pascal
counter's SLOC: the EOF handler counts a pending nonblank line exactly as a
final newline would. -/
theorem pasSloc_append (syn : PasSyntax) (l : List Nat) :
    pasSloc syn (l ++ [10]) = pasSloc syn l := by
  have := pas_append_aux syn l.length l (le_refl _) {}
  simpa [pasSloc, pasCount] using this

/-! ## Supporting lemmas: the C-family counter -/

theorem scanToCharEnd_len : ∀ (l : List Nat), (scanToCharEnd l).2.length ≤ l.length := by
  intro l
  induction l with
  | nil => simp [scanToCharEnd]
  | cons b r ih =>
    simp only [scanToCharEnd]
    split_ifs
    · simp
    · simp; omega

theorem scanCharLit_len (l : List Nat) : (scanCharLit l).2.length ≤ l.length := by
  match l with
  | [] => simp [scanCharLit]
  | a :: r =>
    simp only [scanCharLit]
    split_ifs
    · have h1 := scanToCharEnd_len (r.drop 1)
      have : (r.drop 1).length ≤ r.length := by simp
      simp only [List.length_cons]; omega
    · have h1 := scanToCharEnd_len r
      simp only [List.length_cons]; omega

theorem scanBacktick_len : ∀ (l r : List Nat), scanBacktick l = some r → r.length ≤ l.length := by
  intro l
  induction l with
  | nil => intro r h; simp [scanBacktick] at h
  | cons b l2 ih =>
    intro r h
    simp only [scanBacktick] at h
    split_ifs at h
    · cases h; simp
    · have := ih r h; simp; omega

theorem cfDispatch_len (syn : CFSyntax) (st : CFState) (c : Nat) (rest : List Nat) :
    ∀ st2 c2 r2, cfDispatch syn st c rest = some (st2, c2, r2) → r2.length ≤ rest.length := by
  intro st2 c2 r2 h
  have htail : rest.tail.length ≤ rest.length := by cases rest <;> simp
  have hscan : (scanCharLit rest).2.length ≤ rest.length := scanCharLit_len rest
  have hback : ∀ rr, scanBacktick rest = some rr → rr.length ≤ rest.length :=
    fun rr hh => scanBacktick_len rest rr hh
  simp only [cfDispatch] at h
  split_ifs at h
  all_goals try (cases hb : scanBacktick rest <;> rw [hb] at h)
  all_goals try (have hbl := hback _ hb)
  all_goals simp at h
  all_goals simp_all

theorem cfPost_len (syn : CFSyntax) (st : CFState) (c : Nat) (rest : List Nat) :
    (cfPost syn st c rest).2.length ≤ rest.length := by
  have htail : rest.tail.length ≤ rest.length := by cases rest <;> simp
  have htail2 : rest.tail.tail.length ≤ rest.tail.length := by
    cases rest with
    | nil => simp
    | cons x r => cases r <;> simp
  simp only [cfPost]
  split_ifs <;> simp_all

theorem cfStep_len (syn : CFSyntax) (st : CFState) (c : Nat) (rest : List Nat) :
    ∀ st2 r2, cfStep syn st c rest = some (st2, r2) → r2.length ≤ rest.length := by
  intro st2 r2 h
  simp only [cfStep] at h
  cases hd : cfDispatch syn st c rest with
  | none => rw [hd] at h; simp at h
  | some t =>
    rw [hd] at h
    simp at h
    obtain ⟨st3, c3, r3⟩ := t
    have h1 := cfDispatch_len syn st c rest st3 c3 r3 hd
    have h2 := cfPost_len syn st3 c3 r3
    simp only at h
    rw [h] at h2
    simp at h2
    omega

theorem cfRunFuel_congr (syn : CFSyntax) :
    ∀ (n : Nat), ∀ (m : Nat) (st : CFState) (l : List Nat),
      l.length < n → l.length < m →
      cfRunFuel syn n st l = cfRunFuel syn m st l := by
  intro n
  induction n with
  | zero => intro m st l hn _; omega
  | succ n ih =>
    intro m st l hn hm
    match m, l with
    | m + 1, [] => rfl
    | m + 1, c :: rest =>
      simp only [cfRunFuel]
      cases hs : cfStep syn st c rest with
      | none => rfl
      | some p =>
        have := cfStep_len syn st c rest p.1 p.2 (by rw [hs])
        exact ih m p.1 p.2
          (lt_of_le_of_lt this (by simpa using hn))
          (lt_of_le_of_lt this (by simpa using hm))

theorem scanToCharEnd_append (l : List Nat) :
    (∃ cf r, scanToCharEnd l = (cf, r) ∧ scanToCharEnd (l ++ [10]) = (cf, r ++ [10]))
    ∨ (scanToCharEnd l = (0, []) ∧ scanToCharEnd (l ++ [10]) = (10, [])) := by
  induction l with
  | nil =>
    right
    exact ⟨rfl, by simp [scanToCharEnd]⟩
  | cons b r ih =>
    by_cases hb : b = 39 ∨ b = 10
    · left
      exact ⟨b, r, by simp [scanToCharEnd, hb], by simp [scanToCharEnd, hb]⟩
    · simpa [scanToCharEnd, hb] using ih

theorem scanCharLit_append (l : List Nat) :
    (∃ cf r, scanCharLit l = (cf, r) ∧ scanCharLit (l ++ [10]) = (cf, r ++ [10]))
    ∨ (scanCharLit l = (0, []) ∧
        (scanCharLit (l ++ [10]) = (10, []) ∨ scanCharLit (l ++ [10]) = (0, []))) := by
  match l with
  | [] =>
    right
    exact ⟨rfl, Or.inr (by simp [scanCharLit, scanToCharEnd])⟩
  | a :: r =>
    by_cases ha : a = 92
    · match r with
      | [] =>
        right
        constructor
        · simp [scanCharLit, ha, scanToCharEnd]
        · exact Or.inr (by simp [scanCharLit, ha, scanToCharEnd])
      | x :: r2 =>
        have := scanToCharEnd_append r2
        rcases this with ⟨cf, rr, h1, h2⟩ | ⟨h1, h2⟩
        · left
          exact ⟨cf, rr, by simp [scanCharLit, ha, h1], by simp [scanCharLit, ha, h2]⟩
        · right
          exact ⟨by simp [scanCharLit, ha, h1], Or.inl (by simp [scanCharLit, ha, h2])⟩
    · have := scanToCharEnd_append r
      rcases this with ⟨cf, rr, h1, h2⟩ | ⟨h1, h2⟩
      · left
        exact ⟨cf, rr, by simp [scanCharLit, ha, h1], by simp [scanCharLit, ha, h2]⟩
      · right
        exact ⟨by simp [scanCharLit, ha, h1], Or.inl (by simp [scanCharLit, ha, h2])⟩

theorem scanBacktick_append (l : List Nat) :
    (∃ r, scanBacktick l = some r ∧ scanBacktick (l ++ [10]) = some (r ++ [10]))
    ∨ (scanBacktick l = none ∧ scanBacktick (l ++ [10]) = none) := by
  induction l with
  | nil =>
    right
    exact ⟨rfl, by simp [scanBacktick]⟩
  | cons b r ih =>
    by_cases hb : b = 96
    · left
      exact ⟨r, by simp [scanBacktick, hb], by simp [scanBacktick, hb]⟩
    · rcases ih with ⟨rr, h1, h2⟩ | ⟨h1, h2⟩
      · left
        exact ⟨rr, by simp [scanBacktick, hb, h1], by simp [scanBacktick, hb, h2]⟩
      · right
        exact ⟨by simp [scanBacktick, hb, h1], by simp [scanBacktick, hb, h2]⟩

theorem cfPost_append (syn : CFSyntax) (st : CFState) (c : Nat) (r : List Nat) :
    cfPost syn st c (r ++ [10]) = ((cfPost syn st c r).1, (cfPost syn st c r).2 ++ [10]) := by
  match r with
  | [] => simp only [cfPost]; split_ifs <;> simp_all
  | [x] => simp only [cfPost]; split_ifs <;> simp_all
  | x :: y :: r3 => simp only [cfPost, List.cons_append]; split_ifs <;> simp_all

theorem cfPost_final_nonblank (syn : CFSyntax) (st : CFState) (x : Nat)
    (h : st.nonblank = true) :
    (cfFinalize (cfPost syn st x []).1).1 = st.sloc + 1 := by
  simp only [cfPost, cfFinalize]
  split_ifs <;> simp_all

theorem cfRun_newline_base (syn : CFSyntax) (h : cfNoNewlineDelims syn) (st : CFState) :
    (cfRunFuel syn 2 st [10]).map Prod.fst = some (cfFinalize st).1 := by
  have hms : ¬(syn.multistring ≠ [] ∧ (10 : Nat) = syn.multistring.headD 0) := by
    obtain ⟨-, -, -, h4⟩ := h
    cases hm : syn.multistring <;> simp_all
  simp only [cfRunFuel, cfStep, cfDispatch, cfPost]
  split_ifs <;> simp_all [cfRunFuel, cfFinalize, isspace] <;> split_ifs <;> simp_all

/-! ## Supporting lemmas: appending a final newline to the C-family counter -/

theorem getD1_ne_ten {l : List Nat} (h : 10 ∉ l) : l.getD 1 0 ≠ 10 := by
  match l with
  | [] => simp [List.getD]
  | [a] => simp [List.getD]
  | a :: b :: t => simp_all [List.getD]; omega

theorem drop1_append {rest : List Nat} (h : rest ≠ []) :
    (rest ++ [10]).drop 1 = rest.drop 1 ++ [10] := by
  cases rest with
  | nil => exact absurd rfl h
  | cons x r2 => simp

theorem headD_append {rest : List Nat} (h : rest ≠ []) :
    (rest ++ [10]).headD 0 = rest.headD 0 := by
  cases rest with
  | nil => exact absurd rfl h
  | cons x r2 => simp


theorem cfDispatch_append (syn : CFSyntax) (h : cfNoNewlineDelims syn)
    (st : CFState) (c : Nat) (rest : List Nat) :
    (∃ st2 c2 r2, cfDispatch syn st c rest = some (st2, c2, r2) ∧
        cfDispatch syn st c (rest ++ [10]) = some (st2, c2, r2 ++ [10]))
    ∨ (cfDispatch syn st c rest = none ∧ cfDispatch syn st c (rest ++ [10]) = none)
    ∨ (∃ stC cA cB, cfDispatch syn st c rest = some (stC, cA, []) ∧
        cfDispatch syn st c (rest ++ [10]) = some (stC, cB, []) ∧ stC.nonblank = true) := by
  obtain ⟨hL, hT, hE, hM⟩ := h
  have hL2 := getD1_ne_ten hL
  have hT2 := getD1_ne_ten hT
  have hE2 := getD1_ne_ten hE
  by_cases hm0 : st.mode = 0
  · by_cases h1 : ¬st.lexfile = true ∧ c = 34
    · refine Or.inl ⟨{ st with nonblank := true, mode := 1 }, c, rest, ?_, ?_⟩ <;>
        (simp only [cfDispatch]; rw [if_pos hm0, if_pos h1])
    · by_cases h2 : syn.cbs = true ∧ ¬st.lexfile = true ∧ c = 39
      · rcases scanCharLit_append rest with ⟨cf, r, e1, e2⟩ | ⟨e1, e2 | e2⟩
        · refine Or.inl ⟨{ st with nonblank := true }, cf, r, ?_, ?_⟩
          · simp only [cfDispatch]; rw [if_pos hm0, if_neg h1, if_pos h2, e1]
          · simp only [cfDispatch]; rw [if_pos hm0, if_neg h1, if_pos h2, e2]
        · refine Or.inr (Or.inr ⟨{ st with nonblank := true }, 0, 10, ?_, ?_, rfl⟩)
          · simp only [cfDispatch]; rw [if_pos hm0, if_neg h1, if_pos h2, e1]
          · simp only [cfDispatch]; rw [if_pos hm0, if_neg h1, if_pos h2, e2]
        · refine Or.inr (Or.inr ⟨{ st with nonblank := true }, 0, 0, ?_, ?_, rfl⟩)
          · simp only [cfDispatch]; rw [if_pos hm0, if_neg h1, if_pos h2, e1]
          · simp only [cfDispatch]; rw [if_pos hm0, if_neg h1, if_pos h2, e2]
      · by_cases h3 : c = syn.commentleader.headD 0 ∧
            rest.headD 0 = syn.commentleader.getD 1 0 ∧ rest ≠ []
        · have hd := drop1_append h3.2.2
          have h3' : c = syn.commentleader.headD 0 ∧
              (rest ++ [10]).headD 0 = syn.commentleader.getD 1 0 ∧ rest ++ [10] ≠ [] :=
            ⟨h3.1, by rw [headD_append h3.2.2]; exact h3.2.1, by simp⟩
          refine Or.inl ⟨{ st with mode := 3, commentType := 0 },
            syn.commentleader.getD 1 0, rest.drop 1, ?_, ?_⟩
          · simp only [cfDispatch]; rw [if_pos hm0, if_neg h1, if_neg h2, if_pos h3]
          · simp only [cfDispatch]; rw [if_pos hm0, if_neg h1, if_neg h2, if_pos h3', hd]
        · have h3' : ¬(c = syn.commentleader.headD 0 ∧
              (rest ++ [10]).headD 0 = syn.commentleader.getD 1 0 ∧ rest ++ [10] ≠ []) := by
            cases hr : rest with
            | nil =>
              subst hr
              rintro ⟨-, hx, -⟩
              exact hL2 hx.symm
            | cons x r2 =>
              rw [← hr, headD_append (by simp [hr])]
              exact fun hc => h3 ⟨hc.1, hc.2.1, by simp [hr]⟩
          by_cases h4 : syn.eolcomment ≠ [] ∧ c = syn.eolcomment.headD 0 ∧
              (syn.eolcomment.length > 1 ∧ rest.headD 0 = syn.eolcomment.getD 1 0 ∧ rest ≠ [])
          · have hd := drop1_append h4.2.2.2.2
            have h4' : syn.eolcomment ≠ [] ∧ c = syn.eolcomment.headD 0 ∧
                (syn.eolcomment.length > 1 ∧
                  (rest ++ [10]).headD 0 = syn.eolcomment.getD 1 0 ∧ rest ++ [10] ≠ []) :=
              ⟨h4.1, h4.2.1, h4.2.2.1,
               by rw [headD_append h4.2.2.2.2]; exact h4.2.2.2.1, by simp⟩
            refine Or.inl ⟨{ st with mode := 3, commentType := 1 },
              syn.eolcomment.getD 1 0, rest.drop 1, ?_, ?_⟩
            · simp only [cfDispatch]
              rw [if_pos hm0, if_neg h1, if_neg h2, if_neg h3, if_pos h4]
            · simp only [cfDispatch]
              rw [if_pos hm0, if_neg h1, if_neg h2, if_neg h3', if_pos h4', hd]
          · have h4' : ¬(syn.eolcomment ≠ [] ∧ c = syn.eolcomment.headD 0 ∧
                (syn.eolcomment.length > 1 ∧
                  (rest ++ [10]).headD 0 = syn.eolcomment.getD 1 0 ∧ rest ++ [10] ≠ [])) := by
              cases hr : rest with
              | nil =>
                subst hr
                rintro ⟨-, -, -, hx, -⟩
                exact hE2 hx.symm
              | cons x r2 =>
                rw [← hr, headD_append (by simp [hr])]
                exact fun hc => h4 ⟨hc.1, hc.2.1, hc.2.2.1, hc.2.2.2.1, by simp [hr]⟩
            by_cases h5 : syn.multistring ≠ [] ∧ c = syn.multistring.headD 0
            · refine Or.inl ⟨{ st with mode := 2 }, c, rest, ?_, ?_⟩
              · simp only [cfDispatch]
                rw [if_pos hm0, if_neg h1, if_neg h2, if_neg h3, if_neg h4, if_pos h5]
              · simp only [cfDispatch]
                rw [if_pos hm0, if_neg h1, if_neg h2, if_neg h3', if_neg h4', if_pos h5]
            · by_cases h6 : syn.gotick = true ∧ c = 96
              · rcases scanBacktick_append rest with ⟨rr, e1, e2⟩ | ⟨e1, e2⟩
                · refine Or.inl ⟨st, 96, rr, ?_, ?_⟩
                  · simp only [cfDispatch]
                    rw [if_pos hm0, if_neg h1, if_neg h2, if_neg h3, if_neg h4, if_neg h5,
                      if_pos h6, e1]
                  · simp only [cfDispatch]
                    rw [if_pos hm0, if_neg h1, if_neg h2, if_neg h3', if_neg h4', if_neg h5,
                      if_pos h6, e2]
                · refine Or.inr (Or.inl ⟨?_, ?_⟩)
                  · simp only [cfDispatch]
                    rw [if_pos hm0, if_neg h1, if_neg h2, if_neg h3, if_neg h4, if_neg h5,
                      if_pos h6, e1]
                  · simp only [cfDispatch]
                    rw [if_pos hm0, if_neg h1, if_neg h2, if_neg h3', if_neg h4', if_neg h5,
                      if_pos h6, e2]
              · by_cases h7 : ¬(isspace c = true)
                · refine Or.inl ⟨{ st with nonblank := true }, c, rest, ?_, ?_⟩
                  · simp only [cfDispatch]
                    rw [if_pos hm0, if_neg h1, if_neg h2, if_neg h3, if_neg h4, if_neg h5,
                      if_neg h6, if_pos h7]
                  · simp only [cfDispatch]
                    rw [if_pos hm0, if_neg h1, if_neg h2, if_neg h3', if_neg h4', if_neg h5,
                      if_neg h6, if_pos h7]
                · refine Or.inl ⟨st, c, rest, ?_, ?_⟩
                  · simp only [cfDispatch]
                    rw [if_pos hm0, if_neg h1, if_neg h2, if_neg h3, if_neg h4, if_neg h5,
                      if_neg h6, if_neg h7]
                  · simp only [cfDispatch]
                    rw [if_pos hm0, if_neg h1, if_neg h2, if_neg h3', if_neg h4', if_neg h5,
                      if_neg h6, if_neg h7]
  · by_cases hm1 : st.mode = 1
    · by_cases hq : c = 34
      · refine Or.inl ⟨{ (if ¬(isspace c = true) then { st with nonblank := true } else st)
            with mode := 0 }, c, rest, ?_, ?_⟩ <;>
          (simp only [cfDispatch]; rw [if_neg hm0, if_pos hm1, if_pos hq])
      · by_cases hb1 : syn.cbs = true ∧ c = 92 ∧
            (rest.headD 0 = 34 ∨ rest.headD 0 = 92) ∧ rest ≠ []
        · have hd := drop1_append hb1.2.2.2
          have hb1' : syn.cbs = true ∧ c = 92 ∧
              ((rest ++ [10]).headD 0 = 34 ∨ (rest ++ [10]).headD 0 = 92) ∧ rest ++ [10] ≠ [] := by
            rw [headD_append hb1.2.2.2]
            exact ⟨hb1.1, hb1.2.1, hb1.2.2.1, by simp⟩
          refine Or.inl ⟨(if ¬(isspace c = true) then { st with nonblank := true } else st),
            rest.headD 0, rest.drop 1, ?_, ?_⟩
          · simp only [cfDispatch]; rw [if_neg hm0, if_pos hm1, if_neg hq, if_pos hb1]
          · simp only [cfDispatch]
            rw [if_neg hm0, if_pos hm1, if_neg hq, if_pos hb1', hd, headD_append hb1.2.2.2]
        · have hb1' : ¬(syn.cbs = true ∧ c = 92 ∧
              ((rest ++ [10]).headD 0 = 34 ∨ (rest ++ [10]).headD 0 = 92) ∧
              rest ++ [10] ≠ []) := by
            cases hr : rest with
            | nil =>
              subst hr
              rintro ⟨-, -, hx, -⟩
              simp at hx
            | cons x r2 =>
              rw [← hr, headD_append (by simp [hr])]
              exact fun hc => hb1 ⟨hc.1, hc.2.1, hc.2.2.1, by simp [hr]⟩
          by_cases hb2 : syn.cbs = true ∧ c = 92 ∧ rest.headD 0 = 10 ∧ rest ≠ []
          · have hd := drop1_append hb2.2.2.2
            have hb2' : syn.cbs = true ∧ c = 92 ∧
                (rest ++ [10]).headD 0 = 10 ∧ rest ++ [10] ≠ [] := by
              rw [headD_append hb2.2.2.2]
              exact ⟨hb2.1, hb2.2.1, hb2.2.2.1, by simp⟩
            refine Or.inl ⟨(if ¬(isspace c = true) then { st with nonblank := true } else st),
              10, rest.drop 1, ?_, ?_⟩
            · simp only [cfDispatch]
              rw [if_neg hm0, if_pos hm1, if_neg hq, if_neg hb1, if_pos hb2]
            · simp only [cfDispatch]
              rw [if_neg hm0, if_pos hm1, if_neg hq, if_neg hb1', if_pos hb2', hd]
          · by_cases hb2' : syn.cbs = true ∧ c = 92 ∧
                (rest ++ [10]).headD 0 = 10 ∧ rest ++ [10] ≠ []
            · have hrest : rest = [] := by
                cases hr : rest with
                | nil => rfl
                | cons x r2 =>
                  exfalso
                  apply hb2
                  rw [hr]
                  rw [hr] at hb2'
                  simpa using hb2'
              subst hrest
              have hc92 : c = 92 := hb2'.2.1
              have hsp : ¬(isspace c = true) := by rw [hc92]; simp [isspace]
              refine Or.inr (Or.inr ⟨{ st with nonblank := true }, c, 10, ?_, ?_, rfl⟩)
              · simp only [cfDispatch]
                rw [if_neg hm0, if_pos hm1, if_neg hq, if_neg hb1, if_neg hb2, if_pos hsp]
              · simp only [cfDispatch]
                rw [if_neg hm0, if_pos hm1, if_neg hq, if_neg hb1', if_pos hb2', if_pos hsp]
                rfl
            · refine Or.inl ⟨(if ¬(isspace c = true) then { st with nonblank := true } else st),
                c, rest, ?_, ?_⟩
              · simp only [cfDispatch]
                rw [if_neg hm0, if_pos hm1, if_neg hq, if_neg hb1, if_neg hb2]
              · simp only [cfDispatch]
                rw [if_neg hm0, if_pos hm1, if_neg hq, if_neg hb1', if_neg hb2']
    · by_cases hm2 : st.mode = 2
      · by_cases hq : c = syn.multistring.headD 0
        · refine Or.inl ⟨{ (if ¬(isspace c = true) then { st with nonblank := true } else st)
              with mode := 0 }, c, rest, ?_, ?_⟩ <;>
            (simp only [cfDispatch]; rw [if_neg hm0, if_neg hm1, if_pos hm2, if_pos hq])
        · refine Or.inl ⟨(if ¬(isspace c = true) then { st with nonblank := true } else st),
            c, rest, ?_, ?_⟩ <;>
            (simp only [cfDispatch]; rw [if_neg hm0, if_neg hm1, if_pos hm2, if_neg hq])
      · by_cases ht : st.commentType = 0 ∧ c = syn.commenttrailer.headD 0 ∧
            rest.headD 0 = syn.commenttrailer.getD 1 0 ∧ rest ≠ []
        · have hd := drop1_append ht.2.2.2
          have ht' : st.commentType = 0 ∧ c = syn.commenttrailer.headD 0 ∧
              (rest ++ [10]).headD 0 = syn.commenttrailer.getD 1 0 ∧ rest ++ [10] ≠ [] := by
            rw [headD_append ht.2.2.2]
            exact ⟨ht.1, ht.2.1, ht.2.2.1, by simp⟩
          refine Or.inl ⟨{ (if c = 10 ∧ st.commentType = 1 then { st with mode := 0 } else st)
              with mode := 0 }, syn.commenttrailer.getD 1 0, rest.drop 1, ?_, ?_⟩
          · simp only [cfDispatch]; rw [if_neg hm0, if_neg hm1, if_neg hm2, if_pos ht]
          · simp only [cfDispatch]; rw [if_neg hm0, if_neg hm1, if_neg hm2, if_pos ht', hd]
        · have ht' : ¬(st.commentType = 0 ∧ c = syn.commenttrailer.headD 0 ∧
              (rest ++ [10]).headD 0 = syn.commenttrailer.getD 1 0 ∧ rest ++ [10] ≠ []) := by
            cases hr : rest with
            | nil =>
              subst hr
              rintro ⟨-, -, hx, -⟩
              exact hT2 hx.symm
            | cons x r2 =>
              rw [← hr, headD_append (by simp [hr])]
              exact fun hc => ht ⟨hc.1, hc.2.1, hc.2.2.1, by simp [hr]⟩
          refine Or.inl ⟨(if c = 10 ∧ st.commentType = 1 then { st with mode := 0 } else st),
            c, rest, ?_, ?_⟩
          · simp only [cfDispatch]; rw [if_neg hm0, if_neg hm1, if_neg hm2, if_neg ht]
          · simp only [cfDispatch]; rw [if_neg hm0, if_neg hm1, if_neg hm2, if_neg ht']

theorem cfPost_nil (syn : CFSyntax) (st : CFState) (x : Nat) :
    (cfPost syn st x []).2 = [] := by
  simp only [cfPost]
  split_ifs <;> simp_all

theorem cfPost_eta (syn : CFSyntax) (st : CFState) (x : Nat) :
    cfPost syn st x [] = ((cfPost syn st x []).1, []) := by
  have h2 := cfPost_nil syn st x
  cases hp : cfPost syn st x [] with
  | mk a b =>
    rw [hp] at h2
    simp only at h2
    simp [h2]

theorem cfStep_append (syn : CFSyntax) (h : cfNoNewlineDelims syn)
    (st : CFState) (c : Nat) (rest : List Nat) :
    (∃ st2 r2, cfStep syn st c rest = some (st2, r2) ∧
        cfStep syn st c (rest ++ [10]) = some (st2, r2 ++ [10]))
    ∨ (cfStep syn st c rest = none ∧ cfStep syn st c (rest ++ [10]) = none)
    ∨ (∃ stA stB, cfStep syn st c rest = some (stA, []) ∧
        cfStep syn st c (rest ++ [10]) = some (stB, []) ∧
        (cfFinalize stA).1 = (cfFinalize stB).1) := by
  rcases cfDispatch_append syn h st c rest with
    ⟨st2, c2, r2, e1, e2⟩ | ⟨e1, e2⟩ | ⟨stC, cA, cB, e1, e2, hnb⟩
  · refine Or.inl ⟨(cfPost syn st2 c2 r2).1, (cfPost syn st2 c2 r2).2, ?_, ?_⟩
    · simp [cfStep, e1]
    · simp [cfStep, e2, cfPost_append]
  · exact Or.inr (Or.inl ⟨by simp [cfStep, e1], by simp [cfStep, e2]⟩)
  · refine Or.inr (Or.inr ⟨(cfPost syn stC cA []).1, (cfPost syn stC cB []).1, ?_, ?_, ?_⟩)
    · simp [cfStep, e1, Prod.ext_iff, cfPost_nil]
    · simp [cfStep, e2, Prod.ext_iff, cfPost_nil]
    · rw [cfPost_final_nonblank syn stC cA hnb, cfPost_final_nonblank syn stC cB hnb]

theorem cf_append_aux (syn : CFSyntax) (h : cfNoNewlineDelims syn) :
    ∀ (n : Nat) (l : List Nat), l.length ≤ n → ∀ (st : CFState),
      (cfRunFuel syn (l.length + 2) st (l ++ [10])).map Prod.fst
        = (cfRunFuel syn (l.length + 1) st l).map Prod.fst := by
  intro n
  induction n with
  | zero =>
    intro l hl st
    have hnil : l = [] := List.eq_nil_of_length_eq_zero (by omega)
    subst hnil
    simpa [cfRunFuel, cfFinalize] using cfRun_newline_base syn h st
  | succ n ih =>
    intro l hl st
    match l with
    | [] => simpa [cfRunFuel, cfFinalize] using cfRun_newline_base syn h st
    | c :: rest =>
      simp only [List.length_cons] at hl
      simp only [List.cons_append, List.length_cons, cfRunFuel]
      rw [show rest.append [10] = rest ++ [10] from rfl]
      rcases cfStep_append syn h st c rest with
        ⟨st2, r2, e1, e2⟩ | ⟨e1, e2⟩ | ⟨stA, stB, e1, e2, hfin⟩
      · simp only [e1, e2]
        have hlen := cfStep_len syn st c rest st2 r2 e1
        have g1 : cfRunFuel syn (rest.length + 2) st2 (r2 ++ [10])
            = cfRunFuel syn (r2.length + 2) st2 (r2 ++ [10]) := by
          apply cfRunFuel_congr <;> simp only [List.length_append, List.length_singleton] <;> omega
        have g2 : cfRunFuel syn (rest.length + 1) st2 r2
            = cfRunFuel syn (r2.length + 1) st2 r2 := by
          apply cfRunFuel_congr <;> omega
        rw [g1, g2]
        exact ih r2 (by omega) st2
      · simp [e1, e2]
      · simp only [e1, e2]
        simp [cfRunFuel, cfFinalize] at hfin ⊢
        exact hfin.symm

/-- Appending a terminating newline to any input never changes the C-family
counter's SLOC result, for any descriptor whose delimiters contain no
newline byte: the EOF handler counts a pending nonblank line exactly as a
final newline would. -/
theorem cfSloc_append (syn : CFSyntax) (h : cfNoNewlineDelims syn) (l : List Nat) :
    cfSloc syn (l ++ [10]) = cfSloc syn l := by
  match l with
  | [] =>
    have hb := cfRun_newline_base syn h ({} : CFState)
    have e1 : cfSloc syn (([] : List Nat) ++ [10])
        = (cfRunFuel syn 2 ({} : CFState) [10]).map Prod.fst := by
      simp [cfSloc, cfCount]
    rw [e1, hb]
    simp [cfSloc, cfCount, cfRunFuel, cfFinalize]
  | c :: l2 =>
    by_cases hc : c = 35
    · subst hc
      have haux := cf_append_aux syn h l2.length l2 (le_refl _) ({ lloc := 1 } : CFState)
      have h1 : (((35 :: l2) : List Nat) ++ [10]).headD 0 = 35 ∧ ((35 :: l2) : List Nat) ++ [10] ≠ [] := by
        simp
      have h2 : ((35 :: l2) : List Nat).headD 0 = 35 ∧ ((35 :: l2) : List Nat) ≠ [] := by simp
      simp only [cfSloc, cfCount, if_pos h1, if_pos h2]
      have hd : ((((35 :: l2) : List Nat)) ++ [10]).drop 1 = l2 ++ [10] := by simp
      rw [hd, show (((35 :: l2) : List Nat).drop 1) = l2 by simp]
      have g1 : cfRunFuel syn ((l2 ++ [10]).length + 1) ({ lloc := 1 } : CFState) (l2 ++ [10])
          = cfRunFuel syn (l2.length + 2) ({ lloc := 1 } : CFState) (l2 ++ [10]) := by
        have hlen : (l2 ++ [10]).length = l2.length + 1 := by simp
        exact cfRunFuel_congr syn _ _ _ _ (by omega) (by omega)
      rw [g1]
      exact haux
    · have haux := cf_append_aux syn h (c :: l2).length (c :: l2) (le_refl _) ({} : CFState)
      have h1 : ¬((((c :: l2) : List Nat) ++ [10]).headD 0 = 35 ∧ ((c :: l2) : List Nat) ++ [10] ≠ []) := by
        simp [hc]
      have h2 : ¬(((c :: l2) : List Nat).headD 0 = 35 ∧ ((c :: l2) : List Nat) ≠ []) := by
        simp [hc]
      simp only [cfSloc, cfCount, if_neg h1, if_neg h2]
      have g1 : cfRunFuel syn ((((c :: l2) : List Nat) ++ [10]).length + 1) ({} : CFState)
            (((c :: l2) : List Nat) ++ [10])
          = cfRunFuel syn (((c :: l2) : List Nat).length + 2) ({} : CFState)
            (((c :: l2) : List Nat) ++ [10]) := by
        have hlen : (((c :: l2) : List Nat) ++ [10]).length = ((c :: l2) : List Nat).length + 1 := by
          simp
        exact cfRunFuel_congr syn _ _ _ _ (by omega) (by omega)
      rw [g1]
      exact haux

theorem cfStep_isSome (syn : CFSyntax)
    (hgo : syn.gotick = false ∨ syn.multistring.headD 0 = 96)
    (st : CFState) (c : Nat) (rest : List Nat) :
    cfStep syn st c rest ≠ none := by
  simp only [cfStep, cfDispatch]
  split_ifs <;> try simp
  all_goals
    exfalso
  all_goals
    rcases hgo with hg | hg <;> simp_all

theorem cfRunFuel_total (syn : CFSyntax)
    (hgo : syn.gotick = false ∨ syn.multistring.headD 0 = 96) :
    ∀ (n : Nat) (l : List Nat) (st : CFState), l.length < n → cfRunFuel syn n st l ≠ none := by
  intro n
  induction n with
  | zero => intro l st hh; omega
  | succ n ih =>
    intro l st hlen
    match l with
    | [] => simp [cfRunFuel]
    | c :: rest =>
      simp only [cfRunFuel]
      cases hs : cfStep syn st c rest with
      | none => exact absurd hs (cfStep_isSome syn hgo st c rest)
      | some p =>
        have := cfStep_len syn st c rest p.1 p.2 (by rw [hs])
        exact ih p.2 p.1 (by simp at hlen; omega)



/-! ## Supporting lemmas: LLOC never exceeds SLOC in the line-based counters -/

theorem genericLineStep_le (ec tm : List Nat) (counts : Nat × Nat) (line : List Nat)
    (h : counts.2 ≤ counts.1) :
    (genericLineStep ec tm counts line).2 ≤ (genericLineStep ec tm counts line).1 := by
  simp only [genericLineStep]
  split_ifs <;> simp_all <;> try omega

theorem genericFold_le (ec tm : List Nat) :
    ∀ (lines : List (List Nat)) (counts : Nat × Nat), counts.2 ≤ counts.1 →
      (lines.foldl (genericLineStep ec tm) counts).2
        ≤ (lines.foldl (genericLineStep ec tm) counts).1 := by
  intro lines
  induction lines with
  | nil => intro counts h; simpa using h
  | cons line rest ih =>
    intro counts h
    simp only [List.foldl_cons]
    exact ih _ (genericLineStep_le ec tm counts line h)

theorem pyCountStep_le (st : PyState) (intrip incom : Bool) (line : List Nat)
    (h : st.lloc ≤ st.sloc) :
    (pyCountStep st intrip incom line).lloc ≤ (pyCountStep st intrip incom line).sloc := by
  simp only [pyCountStep]
  split_ifs <;> simp_all <;> try omega

theorem pyStep_le (st : PyState) (line : List Nat) (h : st.lloc ≤ st.sloc) :
    (pyStep st line).lloc ≤ (pyStep st line).sloc := by
  simp only [pyStep]
  exact pyCountStep_le st _ _ _ h

theorem pyFold_le : ∀ (lines : List (List Nat)) (st : PyState), st.lloc ≤ st.sloc →
    (lines.foldl pyStep st).lloc ≤ (lines.foldl pyStep st).sloc := by
  intro lines
  induction lines with
  | nil => intro st h; simpa using h
  | cons line rest ih =>
    intro st h
    simp only [List.foldl_cons]
    exact ih _ (pyStep_le st line h)

theorem perlCountLine_le (st : PerlState) (line : List Nat) (h : st.lloc ≤ st.sloc) :
    (perlCountLine st line).lloc ≤ (perlCountLine st line).sloc := by
  simp only [perlCountLine]
  split_ifs <;> simp_all <;> try omega

theorem perlLoop_le : ∀ (lines : List (List Nat)) (st : PerlState), st.lloc ≤ st.sloc →
    (perlLoop st lines).2 ≤ (perlLoop st lines).1 := by
  intro lines
  induction lines with
  | nil => intro st h; simpa [perlLoop] using h
  | cons line rest ih =>
    intro st h
    simp only [perlLoop]
    split_ifs
    · exact ih _ (perlCountLine_le _ _ h)
    · exact ih _ (perlCountLine_le _ _ h)
    · exact ih _ h
    · exact ih _ (perlCountLine_le _ _ h)
    · simpa using h
    · exact ih _ (perlCountLine_le _ _ h)

/-! ## Remaining claim theorems -/

/-- C1, counterexample: a shell-style file whose whole content is the single
nonblank byte `x` with no terminating newline is counted as zero SLOC by the
generic line counter (the stripped line is nonblank, yet `munchline` drops
the unterminated final line), contradicting the claim that the final line is
still counted. -/
theorem c1_counterexample :
    genericCount [35] [] [120] = (0, 0) ∧ trimSet wsCut [120] ≠ [] := by
  decide

/-- C1, amended: a nonblank unterminated final line is still counted only by
the byte-based counters — the C-family counter (for any descriptor whose
delimiters contain no newline byte, which covers the whole catalog) and the
Pascal counter report the same SLOC whether or not the final newline is
present — whereas the line-based counters (generic, Python, Perl, Fortran)
read whole lines through `munchline` and ignore any newline-less tail
entirely. -/
theorem c1_amended_counts (syn : CFSyntax) (hsyn : cfNoNewlineDelims syn)
    (psyn : PasSyntax) (ec tm : List Nat) (cm ncm : List Nat → Bool)
    (t : List Nat) (ht : ∀ c ∈ t, c ≠ 10) (l : List Nat) :
    cfSloc syn (l ++ [10]) = cfSloc syn l ∧
    pasSloc psyn (l ++ [10]) = pasSloc psyn l ∧
    genericCount ec tm (l ++ t) = genericCount ec tm l ∧
    pythonCount (l ++ t) = pythonCount l ∧
    perlCount (l ++ t) = perlCount l ∧
    fortranCount cm ncm (l ++ t) = fortranCount cm ncm l :=
  ⟨cfSloc_append syn hsyn l, pasSloc_append psyn l,
   by unfold genericCount; rw [splitLines_append_no_nl l t ht],
   by unfold pythonCount; rw [splitLines_append_no_nl l t ht],
   by unfold perlCount; rw [splitLines_append_no_nl l t ht],
   by unfold fortranCount; rw [splitLines_append_no_nl l t ht]⟩

/-- Witness for `c1_amended_counts`, at the catalog's C and Pascal syntaxes,
the scripting `#` comment marker, the f77 regexes, the tail `x` and the body
`x;`. -/
theorem c1_amended_counts_witness :
    cfNoNewlineDelims (toCFSyntax cRow) ∧ (∀ c ∈ [120], c ≠ 10) ∧
    (cfSloc (toCFSyntax cRow) (bytesOf "x;" ++ [10]) = cfSloc (toCFSyntax cRow) (bytesOf "x;") ∧
     pasSloc (toPasSyntax pasRow) (bytesOf "x;" ++ [10]) = pasSloc (toPasSyntax pasRow) (bytesOf "x;") ∧
     genericCount [35] [] (bytesOf "x;" ++ [120]) = genericCount [35] [] (bytesOf "x;") ∧
     pythonCount (bytesOf "x;" ++ [120]) = pythonCount (bytesOf "x;") ∧
     perlCount (bytesOf "x;" ++ [120]) = perlCount (bytesOf "x;") ∧
     fortranCount f77comment f77nocomment (bytesOf "x;" ++ [120])
       = fortranCount f77comment f77nocomment (bytesOf "x;")) :=
  ⟨by decide, by decide,
   c1_amended_counts (toCFSyntax cRow) (by decide) (toPasSyntax pasRow) [35] []
     f77comment f77nocomment [120] (by decide) (bytesOf "x;")⟩

/-- C4, amended: the C-family counter terminates (returns a count) on every
finite input for every descriptor that either lacks the backtick flag or
whose multiline-string delimiter starts with the backtick byte; every
catalog row satisfies this — in particular Go, whose backtick is handled by
the multiline-string branch, closing at the next backtick and finishing
silently at EOF.  (The forward-scanning backtick branch itself is then
unreachable; were it reached, its missing break would loop forever at EOF,
modelled as `none`.) -/
theorem c4_amended_termination (syn : CFSyntax)
    (hgo : syn.gotick = false ∨ syn.multistring.headD 0 = 96) (l : List Nat) :
    cfCount syn l ≠ none := by
  simp only [cfCount]
  split_ifs
  · exact cfRunFuel_total syn hgo _ _ _ (by omega)
  · exact cfRunFuel_total syn hgo _ _ _ (by omega)

/-- Witness for `c4_amended_termination`: the Go descriptor on the
unterminated-backtick file `` `x ``. -/
theorem c4_amended_termination_witness :
    ((toCFSyntax goRow).gotick = false ∨ (toCFSyntax goRow).multistring.headD 0 = 96) ∧
    cfCount (toCFSyntax goRow) [96, 120] ≠ none :=
  ⟨by decide, c4_amended_termination (toCFSyntax goRow) (by decide) [96, 120]⟩

/-- C10: the three line-based counters only increment LLOC on a line that
also increments SLOC, so LLOC never exceeds SLOC for any input; the bound
does not carry over to the byte-based counters, which count one LLOC per
terminator occurrence: on `;;` + newline both the C-family counter (C
descriptor) and the Pascal counter return SLOC 1, LLOC 2. -/
theorem c10_lloc_le_sloc :
    (∀ l : List Nat, (pythonCount l).2 ≤ (pythonCount l).1) ∧
    (∀ l : List Nat, (perlCount l).2 ≤ (perlCount l).1) ∧
    (∀ ec tm l : List Nat, (genericCount ec tm l).2 ≤ (genericCount ec tm l).1) ∧
    cfCount (toCFSyntax cRow) (bytesOf ";;\n") = some (1, 2) ∧
    pasCount (toPasSyntax pasRow) (bytesOf ";;\n") = some (1, 2) := by
  refine ⟨?_, ?_, ?_, by decide, by decide⟩
  · intro l
    have := pyFold_le (splitLines l) {} (le_refl 0)
    simpa [pythonCount] using this
  · intro l
    have := perlLoop_le (splitLines l) {} (le_refl 0)
    simpa [perlCount] using this
  · intro ec tm l
    have := genericFold_le ec tm (splitLines l) (0, 0) (le_refl 0)
    simpa [genericCount] using this
